import Mathlib

/-!
Verification development for the minutemodem physical-layer engine.

The definitions below are shallow embeddings of the Rust sources of the
repository (phy_modem: modem/unified.rs, constellations/qam32.rs,
carriers/nco.rs; channel_physics: slab.rs, channel.rs).  Floating-point
(f64) state is modelled by real numbers; the constellation tables, whose
entries are decimal literals with six fractional digits, additionally get
integer twins scaled by 10^6 so that concrete slicer evaluations can be
carried out in exact integer arithmetic and transported to the reals by
the scaling lemmas proved below.  Machine integers are modelled by
Nat/Int, with the saturating f64-to-i16 and f64-to-u8 conversions of Rust
made explicit.
-/

set_option maxHeartbeats 2000000
set_option maxRecDepth 10000

open Real

-- ============================================================================
-- Small helpers shared by the embeddings
-- ============================================================================

/-- Model of the Rust f64 atan2: the argument of the complex number x + y*I,
taken in (-pi, pi], with atan2 0 0 = 0 (matching Complex.arg 0 = 0). -/
noncomputable def atan2 (y x : ℝ) : ℝ := Complex.arg ⟨x, y⟩

/-- Model of Vec rotate_left(1): the first element moves to the back. -/
def rotate_left1 {α : Type} : List α → List α
  | [] => []
  | x :: xs => xs ++ [x]

/-- Model of Vec rotate_right(1): the last element moves to the front. -/
def rotate_right1 {α : Type} (l : List α) : List α :=
  match l.getLast? with
  | none => []
  | some x => x :: l.dropLast

/-- Write v at the last position of a list (history[len-1] = v). -/
def setLast {α : Type} (l : List α) (v : α) : List α := l.set (l.length - 1) v

/-- Shift a filter history one position and insert a new value at the end,
exactly as the modulator and demodulator do (rotate_left(1) then write at
the last index). -/
def shiftIn {α : Type} (l : List α) (v : α) : List α := setLast (rotate_left1 l) v

/-- Truncation of a real toward zero, the rounding mode of the Rust as-cast
from f64 to an integer type. -/
noncomputable def truncToward0 (x : ℝ) : ℤ := if 0 ≤ x then ⌊x⌋ else ⌈x⌉

/-- Model of the Rust saturating cast (x : f64) as i16: truncate toward zero
and clamp into [-32768, 32767]. -/
noncomputable def i16SatCast (x : ℝ) : ℤ := max (-32768) (min 32767 (truncToward0 x))

/-- Model of the Rust saturating cast (x : f64) as u8: truncate toward zero
and clamp into [0, 255]. -/
noncomputable def u8SatCast (x : ℝ) : ℕ := (max 0 (min 255 (truncToward0 x))).toNat

/-- The formula the specification claims for the modulator output samples:
round to nearest and clamp into the int16 range. -/
noncomputable def roundClampI16 (x : ℝ) : ℤ := max (-32768) (min 32767 (round x))

/-- Model of the Rust f64 clamp(lo, hi): if x < lo then lo else if x > hi
then hi else x. -/
noncomputable def rclamp (x lo hi : ℝ) : ℝ := if x < lo then lo else if x > hi then hi else x


-- ============================================================================
-- Nearest-point search (the slicer loops of modem/unified.rs)
-- ============================================================================

/-- One iteration of the nearest-point loops of the Rust slicers: compute the
squared distance to the enumerated point e and replace the best candidate only
on a strictly smaller distance; best_dist = f64::MAX is modelled by none,
which every finite distance beats. -/
noncomputable def nsStep (i q : ℝ) (acc : ℕ × Option ℝ) (e : ℕ × ℝ × ℝ) : ℕ × Option ℝ :=
  let di := i - e.2.1
  let dq := q - e.2.2
  let dist := di * di + dq * dq
  match acc.2 with
  | none => (e.1, some dist)
  | some best => if dist < best then (e.1, some dist) else acc

/-- Nearest-point search over a list of constellation points, mirroring the
Rust loops with best_sym = 0 and best_dist = f64::MAX initially. -/
noncomputable def nearest_symbol (pts : List (ℝ × ℝ)) (i q : ℝ) : ℕ :=
  (pts.enum.foldl (nsStep i q) ((0 : ℕ), (none : Option ℝ))).1

/-- Integer twin of nsStep, used to evaluate the slicers on concrete inputs:
all table entries have six decimal digits, so scaling points and inputs by
10^6 turns every distance computation into exact integer arithmetic. -/
def nsStepZ (i q : ℤ) (acc : ℕ × Option ℤ) (e : ℕ × ℤ × ℤ) : ℕ × Option ℤ :=
  let di := i - e.2.1
  let dq := q - e.2.2
  let dist := di * di + dq * dq
  match acc.2 with
  | none => (e.1, some dist)
  | some best => if dist < best then (e.1, some dist) else acc

/-- Integer twin of nearest_symbol. -/
def nearest_symbolZ (pts : List (ℤ × ℤ)) (i q : ℤ) : ℕ :=
  (pts.enum.foldl (nsStepZ i q) ((0 : ℕ), (none : Option ℤ))).1

/-- Dividing an integer point by the scale c recovers the real point. -/
noncomputable def scalePt (c : ℝ) (p : ℤ × ℤ) : ℝ × ℝ := ((p.1 : ℝ) / c, (p.2 : ℝ) / c)

/-- Accumulator correspondence for the scaling argument: real best distances
are the integer ones divided by c^2. -/
noncomputable def scaleAcc (c : ℝ) (acc : ℕ × Option ℤ) : ℕ × Option ℝ :=
  (acc.1, acc.2.map fun d => (d : ℝ) / (c * c))

theorem nsStep_scale (c : ℝ) (hc : 0 < c) (i q : ℤ) (acc : ℕ × Option ℤ) (e : ℕ × ℤ × ℤ) :
    nsStep ((i : ℝ) / c) ((q : ℝ) / c) (scaleAcc c acc) (e.1, scalePt c e.2) =
      scaleAcc c (nsStepZ i q acc e) := by
  have hcc : (0 : ℝ) < c * c := mul_pos hc hc
  have hdist : ((i : ℝ) / c - (e.2.1 : ℝ) / c) * ((i : ℝ) / c - (e.2.1 : ℝ) / c) +
      ((q : ℝ) / c - (e.2.2 : ℝ) / c) * ((q : ℝ) / c - (e.2.2 : ℝ) / c) =
      (((i - e.2.1) * (i - e.2.1) + (q - e.2.2) * (q - e.2.2) : ℤ) : ℝ) / (c * c) := by
    push_cast
    field_simp
  rcases acc with ⟨a, _ | best⟩
  · show (e.1, some (((i : ℝ) / c - (e.2.1 : ℝ) / c) * ((i : ℝ) / c - (e.2.1 : ℝ) / c) +
        ((q : ℝ) / c - (e.2.2 : ℝ) / c) * ((q : ℝ) / c - (e.2.2 : ℝ) / c))) =
      (e.1, some ((((i - e.2.1) * (i - e.2.1) + (q - e.2.2) * (q - e.2.2) : ℤ) : ℝ) / (c * c)))
    rw [hdist]
  · show (if ((i : ℝ) / c - (e.2.1 : ℝ) / c) * ((i : ℝ) / c - (e.2.1 : ℝ) / c) +
        ((q : ℝ) / c - (e.2.2 : ℝ) / c) * ((q : ℝ) / c - (e.2.2 : ℝ) / c) <
          (best : ℝ) / (c * c) then
          (e.1, some (((i : ℝ) / c - (e.2.1 : ℝ) / c) * ((i : ℝ) / c - (e.2.1 : ℝ) / c) +
            ((q : ℝ) / c - (e.2.2 : ℝ) / c) * ((q : ℝ) / c - (e.2.2 : ℝ) / c)))
        else (a, some ((best : ℝ) / (c * c)))) =
      scaleAcc c (if (i - e.2.1) * (i - e.2.1) + (q - e.2.2) * (q - e.2.2) < best then
          (e.1, some ((i - e.2.1) * (i - e.2.1) + (q - e.2.2) * (q - e.2.2)))
        else (a, some best))
    by_cases hlt : (i - e.2.1) * (i - e.2.1) + (q - e.2.2) * (q - e.2.2) < best
    · have hlt2 : ((i : ℝ) / c - (e.2.1 : ℝ) / c) * ((i : ℝ) / c - (e.2.1 : ℝ) / c) +
          ((q : ℝ) / c - (e.2.2 : ℝ) / c) * ((q : ℝ) / c - (e.2.2 : ℝ) / c) <
            (best : ℝ) / (c * c) := by
        rw [hdist]
        apply div_lt_div_of_pos_right _ hcc
        exact_mod_cast hlt
      rw [if_pos hlt2, if_pos hlt]
      show _ = (e.1, some ((((i - e.2.1) * (i - e.2.1) + (q - e.2.2) * (q - e.2.2) : ℤ) : ℝ) / (c * c)))
      rw [hdist]
    · have hlt2 : ¬ (((i : ℝ) / c - (e.2.1 : ℝ) / c) * ((i : ℝ) / c - (e.2.1 : ℝ) / c) +
          ((q : ℝ) / c - (e.2.2 : ℝ) / c) * ((q : ℝ) / c - (e.2.2 : ℝ) / c) <
            (best : ℝ) / (c * c)) := by
        rw [hdist, div_lt_div_iff_of_pos_right hcc]
        exact_mod_cast hlt
      rw [if_neg hlt2, if_neg hlt]
      rfl

/-- The nearest-point fold agrees with its integer-scaled twin. -/
theorem nearest_symbol_scale (c : ℝ) (hc : 0 < c) (zpts : List (ℤ × ℤ)) (zi zq : ℤ) :
    nearest_symbol (zpts.map (scalePt c)) ((zi : ℝ) / c) ((zq : ℝ) / c) =
      nearest_symbolZ zpts zi zq := by
  unfold nearest_symbol nearest_symbolZ
  rw [List.enum_map, List.foldl_map]
  have main : ∀ (l : List (ℕ × ℤ × ℤ)) (acc : ℕ × Option ℤ),
      (l.foldl (fun a e => nsStep ((zi : ℝ) / c) ((zq : ℝ) / c) a
          ((Prod.map id (scalePt c)) e)) (scaleAcc c acc)) =
        scaleAcc c (l.foldl (nsStepZ zi zq) acc) := by
    intro l
    induction l with
    | nil => intro acc; rfl
    | cons e l ih =>
      intro acc
      simp only [List.foldl_cons]
      have he : (Prod.map id (scalePt c)) e = (e.1, scalePt c e.2) := rfl
      rw [he, nsStep_scale c hc]
      exact ih (nsStepZ zi zq acc e)
  have h0 : ((0 : ℕ), (none : Option ℝ)) = scaleAcc c (0, none) := rfl
  rw [h0, main zpts.enum (0, none)]
  rfl

-- ============================================================================
-- Constellations (modem/unified.rs lines 115-411)
-- ============================================================================

inductive ConstellationType : Type
  | Bpsk
  | Qpsk
  | Psk8
  | Qam16
  | Qam32
  | Qam64
deriving DecidableEq, Repr

namespace ConstellationType

def order : ConstellationType → ℕ
  | Bpsk => 2
  | Qpsk => 4
  | Psk8 => 8
  | Qam16 => 16
  | Qam32 => 32
  | Qam64 => 64

def bits_per_symbol : ConstellationType → ℕ
  | Bpsk => 1
  | Qpsk => 2
  | Psk8 => 3
  | Qam16 => 4
  | Qam32 => 5
  | Qam64 => 6

end ConstellationType

/-- BPSK forward map (sym & 1 == 0 gives (1,0), else (-1,0)). -/
noncomputable def bpsk_symbol_to_iq (sym : ℕ) : ℝ × ℝ :=
  if sym % 2 = 0 then (1, 0) else (-1, 0)

/-- BPSK slicer (sign of I; i >= 0 gives 0). -/
noncomputable def bpsk_iq_to_symbol (i _q : ℝ) : ℕ :=
  if 0 ≤ i then 0 else 1

/-- QPSK table from qpsk_symbol_to_iq. -/
def QPSK_TABLE : List (ℝ × ℝ) :=
  [ ( 0.7071067811865476,  0.7071067811865476),
    (-0.7071067811865476,  0.7071067811865476),
    (-0.7071067811865476, -0.7071067811865476),
    ( 0.7071067811865476, -0.7071067811865476) ]

/-- QPSK forward map (index sym & 0x03). -/
noncomputable def qpsk_symbol_to_iq (sym : ℕ) : ℝ × ℝ :=
  QPSK_TABLE.getD (sym % 4) (0, 0)

/-- QPSK slicer by quadrant signs. -/
noncomputable def qpsk_iq_to_symbol (i q : ℝ) : ℕ :=
  if 0 ≤ i then (if 0 ≤ q then 0 else 3) else (if 0 ≤ q then 1 else 2)

/-- 8-PSK forward map: phase = (sym & 7) * pi / 4. -/
noncomputable def psk8_symbol_to_iq (sym : ℕ) : ℝ × ℝ :=
  (Real.cos (((sym % 8 : ℕ) : ℝ) * π / 4), Real.sin (((sym % 8 : ℕ) : ℝ) * π / 4))

/-- 8-PSK slicer: add 2*pi to a negative atan2 angle, then floor with a
half-sector bias, cast to u8 and mask with 7. -/
noncomputable def psk8_iq_to_symbol (i q : ℝ) : ℕ :=
  let angle := atan2 q i
  let angle_pos := if angle < 0 then angle + 2 * π else angle
  u8SatCast ((angle_pos + π / 8) / (π / 4)) % 8

def QAM16_CONSTELLATION : List (ℝ × ℝ) :=
  [
    (0.866025, 0.500000),
    (1.000000, 0.000000),
    (0.500000, 0.866025),
    (0.258819, 0.258819),
    (-0.500000, 0.866025),
    (0.000000, 1.000000),
    (-0.866025, 0.500000),
    (-0.258819, 0.258819),
    (0.500000, -0.866025),
    (0.000000, -1.000000),
    (0.866025, -0.500000),
    (0.258819, -0.258819),
    (-0.866025, -0.500000),
    (-0.500000, -0.866025),
    (-1.000000, 0.000000),
    (-0.258819, -0.258819) ]

def QAM16_SCALED : List (ℤ × ℤ) :=
  [
    (866025, 500000),
    (1000000, 0),
    (500000, 866025),
    (258819, 258819),
    (-500000, 866025),
    (0, 1000000),
    (-866025, 500000),
    (-258819, 258819),
    (500000, -866025),
    (0, -1000000),
    (866025, -500000),
    (258819, -258819),
    (-866025, -500000),
    (-500000, -866025),
    (-1000000, 0),
    (-258819, -258819) ]

def QAM32_CONSTELLATION : List (ℝ × ℝ) :=
  [
    (0.866380, 0.499386),
    (0.984849, 0.173415),
    (0.520246, 0.853972),
    (0.520246, 0.173415),
    (-0.173772, 0.984770),
    (0.173416, 0.984770),
    (-0.173772, 0.520089),
    (0.173416, 0.520089),
    (0.520246, -0.853972),
    (0.984849, -0.173415),
    (0.866380, -0.499386),
    (0.520246, -0.173415),
    (-0.173772, -0.520089),
    (0.173416, -0.520089),
    (-0.173772, -0.984770),
    (0.173416, -0.984770),
    (-0.520603, 0.853972),
    (-0.984849, 0.173415),
    (-0.866380, 0.499386),
    (-0.520603, 0.173415),
    (-0.866380, -0.499386),
    (-0.984849, -0.173415),
    (-0.520603, -0.853972),
    (-0.520603, -0.173415),
    (0.866380, 0.499386),
    (0.984849, 0.173415),
    (0.520246, 0.853972),
    (0.520246, 0.173415),
    (-0.173772, 0.984770),
    (0.173416, 0.984770),
    (-0.173772, 0.520089),
    (0.173416, 0.520089) ]

def QAM32_SCALED : List (ℤ × ℤ) :=
  [
    (866380, 499386),
    (984849, 173415),
    (520246, 853972),
    (520246, 173415),
    (-173772, 984770),
    (173416, 984770),
    (-173772, 520089),
    (173416, 520089),
    (520246, -853972),
    (984849, -173415),
    (866380, -499386),
    (520246, -173415),
    (-173772, -520089),
    (173416, -520089),
    (-173772, -984770),
    (173416, -984770),
    (-520603, 853972),
    (-984849, 173415),
    (-866380, 499386),
    (-520603, 173415),
    (-866380, -499386),
    (-984849, -173415),
    (-520603, -853972),
    (-520603, -173415),
    (866380, 499386),
    (984849, 173415),
    (520246, 853972),
    (520246, 173415),
    (-173772, 984770),
    (173416, 984770),
    (-173772, 520089),
    (173416, 520089) ]

def QAM64_CONSTELLATION : List (ℝ × ℝ) :=
  [
    (1.000000, 0.000000),
    (0.822878, 0.568218),
    (0.821137, 0.152996),
    (0.932897, 0.360142),
    (0.000000, 1.000000),
    (0.568218, 0.822878),
    (0.152996, 0.821137),
    (0.360142, 0.932897),
    (0.000000, -1.000000),
    (0.568218, -0.822878),
    (0.152996, -0.821137),
    (0.360142, -0.932897),
    (0.822878, -0.568218),
    (1.000000, 0.000000),
    (0.821137, -0.152996),
    (0.932897, -0.360142),
    (-1.000000, 0.000000),
    (-0.822878, 0.568218),
    (-0.821137, 0.152996),
    (-0.932897, 0.360142),
    (-0.822878, -0.568218),
    (-1.000000, 0.000000),
    (-0.821137, -0.152996),
    (-0.932897, -0.360142),
    (0.000000, 1.000000),
    (-0.568218, 0.822878),
    (-0.152996, 0.821137),
    (-0.360142, 0.932897),
    (0.000000, -1.000000),
    (-0.568218, -0.822878),
    (-0.152996, -0.821137),
    (-0.360142, -0.932897),
    (0.821137, 0.152996),
    (0.570088, 0.414693),
    (0.466049, 0.000000),
    (0.570088, 0.152996),
    (0.152996, 0.821137),
    (0.414693, 0.570088),
    (0.000000, 0.466049),
    (0.152996, 0.570088),
    (0.152996, -0.821137),
    (0.414693, -0.570088),
    (0.000000, -0.466049),
    (0.152996, -0.570088),
    (0.570088, -0.414693),
    (0.821137, -0.152996),
    (0.466049, 0.000000),
    (0.570088, -0.152996),
    (-0.821137, 0.152996),
    (-0.570088, 0.414693),
    (-0.466049, 0.000000),
    (-0.570088, 0.152996),
    (-0.570088, -0.414693),
    (-0.821137, -0.152996),
    (-0.466049, 0.000000),
    (-0.570088, -0.152996),
    (-0.152996, 0.821137),
    (-0.414693, 0.570088),
    (0.000000, 0.466049),
    (-0.152996, 0.570088),
    (-0.152996, -0.821137),
    (-0.414693, -0.570088),
    (0.000000, -0.466049),
    (-0.152996, -0.570088) ]

def QAM64_SCALED : List (ℤ × ℤ) :=
  [
    (1000000, 0),
    (822878, 568218),
    (821137, 152996),
    (932897, 360142),
    (0, 1000000),
    (568218, 822878),
    (152996, 821137),
    (360142, 932897),
    (0, -1000000),
    (568218, -822878),
    (152996, -821137),
    (360142, -932897),
    (822878, -568218),
    (1000000, 0),
    (821137, -152996),
    (932897, -360142),
    (-1000000, 0),
    (-822878, 568218),
    (-821137, 152996),
    (-932897, 360142),
    (-822878, -568218),
    (-1000000, 0),
    (-821137, -152996),
    (-932897, -360142),
    (0, 1000000),
    (-568218, 822878),
    (-152996, 821137),
    (-360142, 932897),
    (0, -1000000),
    (-568218, -822878),
    (-152996, -821137),
    (-360142, -932897),
    (821137, 152996),
    (570088, 414693),
    (466049, 0),
    (570088, 152996),
    (152996, 821137),
    (414693, 570088),
    (0, 466049),
    (152996, 570088),
    (152996, -821137),
    (414693, -570088),
    (0, -466049),
    (152996, -570088),
    (570088, -414693),
    (821137, -152996),
    (466049, 0),
    (570088, -152996),
    (-821137, 152996),
    (-570088, 414693),
    (-466049, 0),
    (-570088, 152996),
    (-570088, -414693),
    (-821137, -152996),
    (-466049, 0),
    (-570088, -152996),
    (-152996, 821137),
    (-414693, 570088),
    (0, 466049),
    (-152996, 570088),
    (-152996, -821137),
    (-414693, -570088),
    (0, -466049),
    (-152996, -570088) ]


noncomputable def qam16_symbol_to_iq (sym : ℕ) : ℝ × ℝ :=
  QAM16_CONSTELLATION.getD (sym % 16) (0, 0)

noncomputable def qam16_iq_to_symbol (i q : ℝ) : ℕ :=
  nearest_symbol QAM16_CONSTELLATION i q

noncomputable def qam32_symbol_to_iq (sym : ℕ) : ℝ × ℝ :=
  QAM32_CONSTELLATION.getD (sym % 32) (0, 0)

/-- The runtime 32-QAM slicer searches only the first 24 unique points. -/
noncomputable def qam32_iq_to_symbol (i q : ℝ) : ℕ :=
  nearest_symbol (QAM32_CONSTELLATION.take 24) i q

noncomputable def qam64_symbol_to_iq (sym : ℕ) : ℝ × ℝ :=
  QAM64_CONSTELLATION.getD (sym % 64) (0, 0)

noncomputable def qam64_iq_to_symbol (i q : ℝ) : ℕ :=
  nearest_symbol QAM64_CONSTELLATION i q

/-- Runtime forward map dispatch (ConstellationType symbol_to_iq). -/
noncomputable def ConstellationType.symbol_to_iq : ConstellationType → ℕ → ℝ × ℝ
  | .Bpsk, s => bpsk_symbol_to_iq s
  | .Qpsk, s => qpsk_symbol_to_iq s
  | .Psk8, s => psk8_symbol_to_iq s
  | .Qam16, s => qam16_symbol_to_iq s
  | .Qam32, s => qam32_symbol_to_iq s
  | .Qam64, s => qam64_symbol_to_iq s

/-- Runtime slicer dispatch (ConstellationType iq_to_symbol). -/
noncomputable def ConstellationType.iq_to_symbol : ConstellationType → ℝ → ℝ → ℕ
  | .Bpsk, i, q => bpsk_iq_to_symbol i q
  | .Qpsk, i, q => qpsk_iq_to_symbol i q
  | .Psk8, i, q => psk8_iq_to_symbol i q
  | .Qam16, i, q => qam16_iq_to_symbol i q
  | .Qam32, i, q => qam32_iq_to_symbol i q
  | .Qam64, i, q => qam64_iq_to_symbol i q

-- ============================================================================
-- The compile-time trait 32-QAM (constellations/qam32.rs)
-- ============================================================================

/-- Normalization factor of the trait Qam32 (1/sqrt 20 as the f64 literal of
the source). -/
def TraitQam32.NORM : ℝ := 0.223606797749979

/-- Cross-constellation grid of the trait Qam32 (integer points). -/
def TraitQam32.QAM32_MAP : List (ℤ × ℤ) :=
  [ (-3, -1), (-3, 1), (-1, -3), (-1, -1),
    (-1, 1), (-1, 3), (1, -3), (1, -1),
    (1, 1), (1, 3), (3, -1), (3, 1),
    (-5, -1), (-5, 1), (-3, -3), (-3, 3),
    (-1, -5), (-1, 5), (1, -5), (1, 5),
    (3, -3), (3, 3), (5, -1), (5, 1),
    (-5, -3), (-5, 3), (-3, -5), (-3, 5),
    (3, -5), (3, 5), (5, -3), (5, 3) ]

/-- Trait Qam32 forward map: grid point times NORM. -/
noncomputable def TraitQam32.symbol_to_iq (sym : ℕ) : ℝ × ℝ :=
  let p := TraitQam32.QAM32_MAP.getD (sym % 32) (0, 0)
  ((p.1 : ℝ) * TraitQam32.NORM, (p.2 : ℝ) * TraitQam32.NORM)

/-- Trait Qam32 slicer: denormalize, then nearest-point search over all 32
grid points. -/
noncomputable def TraitQam32.iq_to_symbol (i q : ℝ) : ℕ :=
  let i_val := i / TraitQam32.NORM
  let q_val := q / TraitQam32.NORM
  nearest_symbol (TraitQam32.QAM32_MAP.map fun p => ((p.1 : ℝ), (p.2 : ℝ))) i_val q_val

-- ============================================================================
-- Scaled-table correspondence
-- ============================================================================

theorem getD_map_scale (c : ℝ) (l : List (ℤ × ℤ)) (n : ℕ) :
    (l.map (scalePt c)).getD n (0, 0) = scalePt c (l.getD n (0, 0)) := by
  rcases h : l[n]? with _ | p
  · simp [List.getD, h, scalePt]
  · simp [List.getD, h]

theorem QAM16_tbl_scale : QAM16_CONSTELLATION = QAM16_SCALED.map (scalePt 1000000) := by
  norm_num [QAM16_CONSTELLATION, QAM16_SCALED, scalePt]

theorem QAM32_tbl_scale : QAM32_CONSTELLATION = QAM32_SCALED.map (scalePt 1000000) := by
  norm_num [QAM32_CONSTELLATION, QAM32_SCALED, scalePt]

theorem QAM64_tbl_scale : QAM64_CONSTELLATION = QAM64_SCALED.map (scalePt 1000000) := by
  norm_num [QAM64_CONSTELLATION, QAM64_SCALED, scalePt]

-- ============================================================================
-- Round-trip facts for the table constellations
-- ============================================================================

theorem qam16_roundtripZ : ∀ t : Fin 16,
    nearest_symbolZ QAM16_SCALED (QAM16_SCALED.getD t ((0 : ℤ), (0 : ℤ))).1
      (QAM16_SCALED.getD t ((0 : ℤ), (0 : ℤ))).2 = t.val := by decide

theorem qam32_roundtripZ : ∀ t : Fin 32,
    nearest_symbolZ (QAM32_SCALED.take 24) (QAM32_SCALED.getD t ((0 : ℤ), (0 : ℤ))).1
      (QAM32_SCALED.getD t ((0 : ℤ), (0 : ℤ))).2 =
      (if t.val < 24 then t.val else t.val - 24) := by decide

theorem qam64_roundtripZ : ∀ t : Fin 64,
    nearest_symbolZ QAM64_SCALED (QAM64_SCALED.getD t ((0 : ℤ), (0 : ℤ))).1
      (QAM64_SCALED.getD t ((0 : ℤ), (0 : ℤ))).2 =
      (if t.val = 13 then 0 else if t.val = 21 then 16 else if t.val = 24 then 4
       else if t.val = 28 then 8 else if t.val = 32 then 2 else if t.val = 36 then 6
       else if t.val = 40 then 10 else if t.val = 45 then 14 else if t.val = 46 then 34
       else if t.val = 48 then 18 else if t.val = 53 then 22 else if t.val = 54 then 50
       else if t.val = 56 then 26 else if t.val = 58 then 38 else if t.val = 60 then 30
       else if t.val = 62 then 42 else t.val) := by decide

theorem qam16_roundtrip (s : ℕ) (hs : s < 16) :
    qam16_iq_to_symbol (qam16_symbol_to_iq s).1 (qam16_symbol_to_iq s).2 = s := by
  unfold qam16_iq_to_symbol qam16_symbol_to_iq
  rw [Nat.mod_eq_of_lt hs, QAM16_tbl_scale, getD_map_scale]
  simp only [scalePt]
  rw [nearest_symbol_scale 1000000 (by norm_num)]
  exact qam16_roundtripZ ⟨s, hs⟩

theorem qam32_roundtrip (s : ℕ) (hs : s < 32) :
    qam32_iq_to_symbol (qam32_symbol_to_iq s).1 (qam32_symbol_to_iq s).2 =
      (if s < 24 then s else s - 24) := by
  unfold qam32_iq_to_symbol qam32_symbol_to_iq
  rw [Nat.mod_eq_of_lt hs, QAM32_tbl_scale, getD_map_scale, ← List.map_take]
  simp only [scalePt]
  rw [nearest_symbol_scale 1000000 (by norm_num)]
  exact qam32_roundtripZ ⟨s, hs⟩

theorem qam64_roundtrip (s : ℕ) (hs : s < 64) :
    qam64_iq_to_symbol (qam64_symbol_to_iq s).1 (qam64_symbol_to_iq s).2 =
      (if s = 13 then 0 else if s = 21 then 16 else if s = 24 then 4
       else if s = 28 then 8 else if s = 32 then 2 else if s = 36 then 6
       else if s = 40 then 10 else if s = 45 then 14 else if s = 46 then 34
       else if s = 48 then 18 else if s = 53 then 22 else if s = 54 then 50
       else if s = 56 then 26 else if s = 58 then 38 else if s = 60 then 30
       else if s = 62 then 42 else s) := by
  unfold qam64_iq_to_symbol qam64_symbol_to_iq
  rw [Nat.mod_eq_of_lt hs, QAM64_tbl_scale, getD_map_scale]
  simp only [scalePt]
  rw [nearest_symbol_scale 1000000 (by norm_num)]
  exact qam64_roundtripZ ⟨s, hs⟩

theorem bpsk_roundtrip (s : ℕ) (hs : s < 2) :
    bpsk_iq_to_symbol (bpsk_symbol_to_iq s).1 (bpsk_symbol_to_iq s).2 = s := by
  interval_cases s <;> norm_num [bpsk_symbol_to_iq, bpsk_iq_to_symbol]

theorem qpsk_roundtrip (s : ℕ) (hs : s < 4) :
    qpsk_iq_to_symbol (qpsk_symbol_to_iq s).1 (qpsk_symbol_to_iq s).2 = s := by
  interval_cases s <;> norm_num [qpsk_symbol_to_iq, qpsk_iq_to_symbol, QPSK_TABLE]

theorem atan2_cos_sin (θ : ℝ) (h1 : -π < θ) (h2 : θ ≤ π) :
    atan2 (Real.sin θ) (Real.cos θ) = θ := by
  unfold atan2
  have hmk : (⟨Real.cos θ, Real.sin θ⟩ : ℂ) = Complex.cos θ + Complex.sin θ * Complex.I := by
    rw [Complex.mk_eq_add_mul_I, Complex.ofReal_cos, Complex.ofReal_sin]
  rw [hmk]
  exact Complex.arg_cos_add_sin_mul_I ⟨h1, h2⟩

theorem psk8_roundtrip (s : ℕ) (hs : s < 8) :
    psk8_iq_to_symbol (psk8_symbol_to_iq s).1 (psk8_symbol_to_iq s).2 = s := by
  have hpi := Real.pi_pos
  unfold psk8_symbol_to_iq psk8_iq_to_symbol
  rw [Nat.mod_eq_of_lt hs]
  show u8SatCast
      (((if atan2 (Real.sin ((s : ℝ) * π / 4)) (Real.cos ((s : ℝ) * π / 4)) < 0 then
          atan2 (Real.sin ((s : ℝ) * π / 4)) (Real.cos ((s : ℝ) * π / 4)) + 2 * π
        else atan2 (Real.sin ((s : ℝ) * π / 4)) (Real.cos ((s : ℝ) * π / 4))) + π / 8) /
        (π / 4)) % 8 = s
  have hfloor : truncToward0 ((s : ℝ) + 1 / 2) = (s : ℤ) := by
    unfold truncToward0
    rw [if_pos (by positivity)]
    rw [Int.floor_eq_iff]
    constructor
    · push_cast; linarith
    · push_cast; linarith
  rcases Nat.lt_or_ge s 5 with hlow | hhigh
  · -- angles in [0, pi]: atan2 returns the angle itself, which is nonnegative
    have hang : atan2 (Real.sin ((s : ℝ) * π / 4)) (Real.cos ((s : ℝ) * π / 4)) =
        (s : ℝ) * π / 4 := by
      apply atan2_cos_sin
      · have h0 : (0 : ℝ) ≤ (s : ℝ) * π / 4 := by positivity
        linarith
      · have hs4 : (s : ℝ) ≤ 4 := by exact_mod_cast Nat.lt_succ_iff.mp hlow
        nlinarith
    rw [hang]
    have hnonneg : ¬ ((s : ℝ) * π / 4 < 0) := not_lt.mpr (by positivity)
    rw [if_neg hnonneg]
    have hval : ((s : ℝ) * π / 4 + π / 8) / (π / 4) = (s : ℝ) + 1 / 2 := by
      field_simp
      ring
    rw [hval]
    unfold u8SatCast
    rw [hfloor]
    interval_cases s <;> simp
  · -- angles in (pi, 2*pi): atan2 returns angle - 2*pi, which is negative
    have hs8 : (s : ℝ) ≤ 7 := by exact_mod_cast Nat.lt_succ_iff.mp hs
    have hs5 : (5 : ℝ) ≤ (s : ℝ) := by exact_mod_cast hhigh
    have hsin : Real.sin ((s : ℝ) * π / 4 - 2 * π) = Real.sin ((s : ℝ) * π / 4) :=
      Real.sin_sub_two_pi _
    have hcos : Real.cos ((s : ℝ) * π / 4 - 2 * π) = Real.cos ((s : ℝ) * π / 4) :=
      Real.cos_sub_two_pi _
    have hang : atan2 (Real.sin ((s : ℝ) * π / 4)) (Real.cos ((s : ℝ) * π / 4)) =
        (s : ℝ) * π / 4 - 2 * π := by
      rw [← hsin, ← hcos]
      apply atan2_cos_sin
      · nlinarith
      · nlinarith
    rw [hang]
    have hneg : (s : ℝ) * π / 4 - 2 * π < 0 := by nlinarith
    rw [if_pos hneg]
    have hval : ((s : ℝ) * π / 4 - 2 * π + 2 * π + π / 8) / (π / 4) = (s : ℝ) + 1 / 2 := by
      field_simp
      ring
    rw [hval]
    unfold u8SatCast
    rw [hfloor]
    interval_cases s <;> simp

-- ============================================================================
-- C1: constellation round-trip
-- ============================================================================

/-- The value actually recovered by iq_to_symbol after symbol_to_iq: the
identity except at the aliased table indices of 32-QAM (24-31 replicate 0-7)
and 64-QAM (sixteen indices repeat an earlier point), where the slicer
returns the lowest index carrying the same constellation point. -/
def roundTripAlias : ConstellationType → ℕ → ℕ
  | .Bpsk, s => s
  | .Qpsk, s => s
  | .Psk8, s => s
  | .Qam16, s => s
  | .Qam32, s => if s < 24 then s else s - 24
  | .Qam64, s =>
      if s = 13 then 0 else if s = 21 then 16 else if s = 24 then 4
      else if s = 28 then 8 else if s = 32 then 2 else if s = 36 then 6
      else if s = 40 then 10 else if s = 45 then 14 else if s = 46 then 34
      else if s = 48 then 18 else if s = 53 then 22 else if s = 54 then 50
      else if s = 56 then 26 else if s = 58 then 38 else if s = 60 then 30
      else if s = 62 then 42 else s

/-- C1 (amended).  Round-trip of the runtime constellations: for BPSK, QPSK,
8PSK and 16QAM, iq_to_symbol after symbol_to_iq recovers every symbol
s < order.  For 32QAM the round-trip recovers s only for s < 24; the aliased
indices 24-31 come back as s - 24.  For 64QAM the sixteen aliased indices
13, 21, 24, 28, 32, 36, 40, 45, 46, 48, 53, 54, 56, 58, 60, 62 come back as
the lowest index with the same point; all other symbols are recovered
exactly.  The original claim (round-trip is the identity for every
constellation and every s < order) is refuted by
c1_roundtrip_fails_at_qam32_24 below. -/
theorem c1_constellation_roundtrip (c : ConstellationType) (s : Fin c.order) :
    c.iq_to_symbol (c.symbol_to_iq s.val).1 (c.symbol_to_iq s.val).2 =
      roundTripAlias c s.val := by
  cases c with
  | Bpsk => exact bpsk_roundtrip s.val s.isLt
  | Qpsk => exact qpsk_roundtrip s.val s.isLt
  | Psk8 => exact psk8_roundtrip s.val s.isLt
  | Qam16 => exact qam16_roundtrip s.val s.isLt
  | Qam32 => exact qam32_roundtrip s.val s.isLt
  | Qam64 => exact qam64_roundtrip s.val s.isLt

/-- C1 counterexample to the claim as stated: symbol 24 of the runtime
32-QAM is in range (24 < order = 32) but the slicer returns 0, not 24,
because table indices 24-31 duplicate indices 0-7 and the slicer searches
only the 24 unique points. -/
theorem c1_roundtrip_fails_at_qam32_24 :
    24 < ConstellationType.Qam32.order ∧
    ConstellationType.Qam32.iq_to_symbol
      (ConstellationType.Qam32.symbol_to_iq 24).1
      (ConstellationType.Qam32.symbol_to_iq 24).2 = 0 ∧ (0 : ℕ) ≠ 24 := by
  refine ⟨by norm_num [ConstellationType.order], ?_, by norm_num⟩
  have h := qam32_roundtrip 24 (by norm_num)
  simpa using h

-- ============================================================================
-- C5: the two 32-QAM offerings
-- ============================================================================

theorem nearest_symbol_lt_length (pts : List (ℝ × ℝ)) (i q : ℝ) (h : pts ≠ []) :
    nearest_symbol pts i q < pts.length := by
  unfold nearest_symbol
  have main : ∀ (l : List (ℕ × ℝ × ℝ)) (acc : ℕ × Option ℝ),
      acc.1 < pts.length → (∀ e ∈ l, e.1 < pts.length) →
      (l.foldl (nsStep i q) acc).1 < pts.length := by
    intro l
    induction l with
    | nil => intro acc hacc _; exact hacc
    | cons e l ih =>
      intro acc hacc hall
      simp only [List.foldl_cons]
      apply ih
      · unfold nsStep
        rcases acc with ⟨a, _ | best⟩
        · exact hall e (List.mem_cons_self e l)
        · dsimp only
          split
          · exact hall e (List.mem_cons_self e l)
          · exact hacc
      · intro x hx; exact hall x (List.mem_cons_of_mem e hx)
  apply main
  · exact List.length_pos.mpr h
  · intro e he
    have h2 := List.mem_enum_iff_getElem?.mp he
    exact (List.getElem?_eq_some.mp h2).1

/-- C5 (amended).  The two 32-QAM offerings do not realize the same map.
The runtime ConstellationType.Qam32 is the Table D-VIII map: indices 24-31
replicate the points of indices 0-7 and its slicer searches only the first
24 entries, so it always answers a symbol below 24.  The compile-time trait
Qam32 is a different constellation entirely (the cross grid over
{-5..5} x {-5..5} scaled by 1/sqrt 20, whose slicer searches all 32 entries),
and the two forward maps already disagree at symbol 0, as shown by
c5_trait_vs_runtime_qam32_counterexample. -/
theorem c5_qam32_offerings (s : Fin 8) (i q : ℝ) :
    ConstellationType.Qam32.symbol_to_iq (24 + s.val) =
      ConstellationType.Qam32.symbol_to_iq s.val ∧
    ConstellationType.Qam32.iq_to_symbol i q < 24 := by
  constructor
  · show qam32_symbol_to_iq (24 + s.val) = qam32_symbol_to_iq s.val
    fin_cases s <;> rfl
  · show qam32_iq_to_symbol i q < 24
    unfold qam32_iq_to_symbol
    have h := nearest_symbol_lt_length (QAM32_CONSTELLATION.take 24) i q
      (by simp [QAM32_CONSTELLATION])
    simpa [QAM32_CONSTELLATION] using h

/-- C5 counterexample to the claim as stated: at symbol 0 the compile-time
trait Qam32 produces the cross-grid point (-3, -1)/sqrt 20 while the runtime
ConstellationType.Qam32 produces the Table D-VIII point (0.866380, 0.499386);
the two symbol-to-IQ maps differ. -/
theorem c5_trait_vs_runtime_qam32_counterexample :
    TraitQam32.symbol_to_iq 0 ≠ ConstellationType.Qam32.symbol_to_iq 0 := by
  show TraitQam32.symbol_to_iq 0 ≠ qam32_symbol_to_iq 0
  unfold TraitQam32.symbol_to_iq qam32_symbol_to_iq
  simp only [TraitQam32.QAM32_MAP, TraitQam32.NORM, QAM32_CONSTELLATION]
  intro h
  have h1 := congrArg Prod.fst h
  norm_num at h1

-- ============================================================================
-- Decision Feedback Equalizer (modem/unified.rs lines 455-846)
-- ============================================================================

/-- Configuration of the DFE (struct DFEConfig). -/
structure DFEConfig where
  ff_taps : ℕ
  fb_taps : ℕ
  mu : ℝ
  mu_cma : ℝ
  leakage : ℝ
  update_threshold : ℝ
  cma_to_dd_threshold : ℝ
  cma_min_symbols : ℕ

/-- Equalizer operating mode. -/
inductive EqMode : Type
  | CMA
  | DD
deriving DecidableEq, Repr

/-- State of the DFE.  The f64 complex numbers of the source (struct Complex,
with componentwise add/sub, the usual product, conj and mag_sq) are modelled
by ℂ, whose operations coincide with them. -/
structure DFE where
  config : DFEConfig
  constellation : ConstellationType
  mode : EqMode
  ff_coeffs : List ℂ
  ff_history : List ℂ
  fb_coeffs : List ℂ
  fb_history : List ℕ
  cma_r2 : ℝ
  total_symbols : ℕ
  error_power_avg : ℝ
  cma_cost_avg : ℝ

namespace DFE

/-- CMA target R^2 = E[|a|^4]/E[|a|^2] over the constellation points (the
source accumulates both sums in one loop over the symbols). -/
noncomputable def compute_cma_r2 (c : ConstellationType) : ℝ :=
  let n := c.order
  let sums := (List.range n).foldl
    (fun acc s =>
      let p := c.symbol_to_iq s
      let mag_sq := p.1 * p.1 + p.2 * p.2
      (acc.1 + mag_sq, acc.2 + mag_sq * mag_sq))
    ((0 : ℝ), (0 : ℝ))
  (sums.2 / n) / (sums.1 / n)

/-- Set the center feedforward tap to 1 + 0j. -/
noncomputable def init_center_tap (d : DFE) : DFE :=
  { d with ff_coeffs := d.ff_coeffs.set (d.ff_coeffs.length / 2) 1 }

/-- Constructor (DFE::new): zero taps and histories, center tap 1, CMA mode,
unit starting error estimates. -/
noncomputable def new (config : DFEConfig) (constellation : ConstellationType) : DFE :=
  init_center_tap
    { config := config
      constellation := constellation
      mode := EqMode.CMA
      ff_coeffs := List.replicate config.ff_taps 0
      ff_history := List.replicate config.ff_taps 0
      fb_coeffs := List.replicate config.fb_taps 0
      fb_history := List.replicate config.fb_taps 0
      cma_r2 := compute_cma_r2 constellation
      total_symbols := 0
      error_power_avg := 1
      cma_cost_avg := 1 }

/-- Reset: zero all taps and histories in place, re-init the center tap,
return to CMA mode and unit error estimates. -/
noncomputable def reset (d : DFE) : DFE :=
  init_center_tap
    { d with
      ff_coeffs := d.ff_coeffs.map fun _ => 0
      fb_coeffs := d.fb_coeffs.map fun _ => 0
      ff_history := d.ff_history.map fun _ => 0
      fb_history := d.fb_history.map fun _ => 0
      mode := EqMode.CMA
      total_symbols := 0
      error_power_avg := 1
      cma_cost_avg := 1 }

/-- Mid-stream constellation switch: replaces the constellation and
recomputes R^2, nothing else. -/
noncomputable def set_constellation (d : DFE) (constellation : ConstellationType) : DFE :=
  { d with constellation := constellation, cma_r2 := compute_cma_r2 constellation }

/-- Force DD mode. -/
def set_dd_mode (d : DFE) : DFE := { d with mode := EqMode.DD }

noncomputable def compute_ff_output (d : DFE) : ℂ :=
  ((d.ff_coeffs.zip d.ff_history).map fun p => p.1 * p.2).sum

noncomputable def compute_fb_output (d : DFE) : ℂ :=
  ((d.fb_coeffs.zip d.fb_history).map fun p =>
    let iq := d.constellation.symbol_to_iq p.2
    p.1 * ⟨iq.1, iq.2⟩).sum

/-- CMA update of the feedforward taps and the dispersion EMA (the feedback
taps are not updated in CMA mode). -/
noncomputable def update_cma (d : DFE) (eq_out : ℂ) : DFE :=
  let mag_sq := Complex.normSq eq_out
  let cma_error := mag_sq - d.cma_r2
  let mu := d.config.mu_cma
  let leakage := d.config.leakage
  let scale := 2 * cma_error
  { d with
    cma_cost_avg := 0.99 * d.cma_cost_avg + 0.01 * cma_error * cma_error
    ff_coeffs := (d.ff_coeffs.zip d.ff_history).map fun p =>
      p.1 * (leakage : ℂ) - eq_out * (starRingEnd ℂ) p.2 * ((scale * mu : ℝ) : ℂ) }

/-- DD-LMS update with a step-size multiplier (1 in tracking, 2 in training). -/
noncomputable def update_dd_scaled (d : DFE) (error : ℂ) (mu_scale : ℝ) : DFE :=
  let mu := d.config.mu * mu_scale
  let leakage := d.config.leakage
  { d with
    ff_coeffs := (d.ff_coeffs.zip d.ff_history).map fun p =>
      p.1 * (leakage : ℂ) - error * (starRingEnd ℂ) p.2 * ((mu : ℝ) : ℂ)
    fb_coeffs := (d.fb_coeffs.zip d.fb_history).map fun p =>
      let iq := d.constellation.symbol_to_iq p.2
      let past : ℂ := ⟨iq.1, iq.2⟩
      p.1 * (leakage : ℂ) + error * (starRingEnd ℂ) past * ((mu : ℝ) : ℂ) }

noncomputable def update_dd (d : DFE) (error : ℂ) : DFE :=
  update_dd_scaled d error 1

/-- Condition for the CMA-to-DD switch: enough symbols seen, CMA dispersion
EMA below threshold and DD error EMA below 0.5. -/
def should_switch_to_dd (d : DFE) : Prop :=
  d.config.cma_min_symbols ≤ d.total_symbols ∧
  d.cma_cost_avg < d.config.cma_to_dd_threshold ∧
  d.error_power_avg < 0.5

noncomputable instance (d : DFE) : Decidable d.should_switch_to_dd := by
  unfold should_switch_to_dd
  infer_instance

/-- Body of DFE::equalize up to (and excluding) the final mode-transition
check: history push, filter outputs, decision, conditional coefficient
update, feedback-history push and statistics update. -/
noncomputable def equalizeCore (d : DFE) (i q : ℝ) : ℕ × DFE :=
  let input : ℂ := ⟨i, q⟩
  let d1 := { d with ff_history := (rotate_right1 d.ff_history).set 0 input }
  let ff_out := compute_ff_output d1
  let fb_out := compute_fb_output d1
  let eq_out := ff_out - fb_out
  let decision := d1.constellation.iq_to_symbol eq_out.re eq_out.im
  let ref_iq := d1.constellation.symbol_to_iq decision
  let reference : ℂ := ⟨ref_iq.1, ref_iq.2⟩
  let d2 :=
    if Complex.normSq input > d1.config.update_threshold then
      match d1.mode with
      | EqMode.CMA => update_cma d1 eq_out
      | EqMode.DD => update_dd d1 (eq_out - reference)
    else d1
  let d3 := { d2 with fb_history := (rotate_right1 d2.fb_history).set 0 decision }
  let dd_error := eq_out - reference
  let d4 := { d3 with
    total_symbols := d3.total_symbols + 1
    error_power_avg := 0.99 * d3.error_power_avg + 0.01 * Complex.normSq dd_error }
  (decision, d4)

/-- DFE::equalize: the core followed by the CMA-to-DD transition check on the
updated statistics. -/
noncomputable def equalize (d : DFE) (i q : ℝ) : ℕ × DFE :=
  let r := equalizeCore d i q
  let d4 := r.2
  (r.1, if d4.mode = EqMode.CMA ∧ d4.should_switch_to_dd then
      { d4 with mode := EqMode.DD } else d4)

/-- DFE::train on a known symbol: DD update with doubled step, the known
symbol pushed into the feedback history, and the mode forced to DD. -/
noncomputable def train (d : DFE) (i q : ℝ) (known_symbol : ℕ) : ℕ × DFE :=
  let input : ℂ := ⟨i, q⟩
  let d1 := { d with ff_history := (rotate_right1 d.ff_history).set 0 input }
  let ff_out := compute_ff_output d1
  let fb_out := compute_fb_output d1
  let eq_out := ff_out - fb_out
  let ref_iq := d1.constellation.symbol_to_iq known_symbol
  let reference : ℂ := ⟨ref_iq.1, ref_iq.2⟩
  let error := eq_out - reference
  let d2 := update_dd_scaled d1 error 2
  let d3 := { d2 with fb_history := (rotate_right1 d2.fb_history).set 0 known_symbol }
  let d4 := { d3 with
    total_symbols := d3.total_symbols + 1
    error_power_avg := 0.99 * d3.error_power_avg + 0.01 * Complex.normSq error
    mode := EqMode.DD }
  (d1.constellation.iq_to_symbol eq_out.re eq_out.im, d4)

end DFE

-- ============================================================================
-- C3: DFE mode machine, and C7: set_constellation frame property
-- ============================================================================

theorem equalizeCore_mode (d : DFE) (i q : ℝ) :
    ((d.equalizeCore i q).2).mode = d.mode := by
  unfold DFE.equalizeCore
  cases hm : d.mode <;>
    simp only [hm, DFE.update_cma, DFE.update_dd, DFE.update_dd_scaled] <;>
    split <;> rfl

theorem equalizeCore_config (d : DFE) (i q : ℝ) :
    ((d.equalizeCore i q).2).config = d.config := by
  unfold DFE.equalizeCore
  cases hm : d.mode <;>
    simp only [hm, DFE.update_cma, DFE.update_dd, DFE.update_dd_scaled] <;>
    split <;> rfl

theorem equalize_eq (d : DFE) (i q : ℝ) :
    d.equalize i q =
      ((d.equalizeCore i q).1,
        if ((d.equalizeCore i q).2).mode = EqMode.CMA ∧
            ((d.equalizeCore i q).2).should_switch_to_dd then
          { (d.equalizeCore i q).2 with mode := EqMode.DD }
        else (d.equalizeCore i q).2) := rfl

/-- C3 (confirmed).  The DFE mode machine: the mode is CMA at construction
and after reset; every train call forces DD; an equalize call switches
CMA to DD exactly when, on the updated statistics of the call, the symbol
count has reached cma_min_symbols, the CMA dispersion EMA is below
cma_to_dd_threshold and the DD error EMA is below 0.5 — in particular the
mode never leaves CMA while the symbol count is below cma_min_symbols. -/
theorem c3_dfe_mode_machine (cfg : DFEConfig) (c : ConstellationType) (d : DFE)
    (i q : ℝ) (s : ℕ) :
    (DFE.new cfg c).mode = EqMode.CMA ∧
    d.reset.mode = EqMode.CMA ∧
    ((d.train i q s).2).mode = EqMode.DD ∧
    (((d.equalize i q).2).mode = EqMode.DD ↔
      (d.mode = EqMode.DD ∨
        (d.mode = EqMode.CMA ∧
          d.config.cma_min_symbols ≤ ((d.equalize i q).2).total_symbols ∧
          ((d.equalize i q).2).cma_cost_avg < d.config.cma_to_dd_threshold ∧
          ((d.equalize i q).2).error_power_avg < 0.5))) := by
  refine ⟨rfl, rfl, rfl, ?_⟩
  have hmode := equalizeCore_mode d i q
  have hcfg := equalizeCore_config d i q
  rw [equalize_eq]
  by_cases hc : ((d.equalizeCore i q).2).mode = EqMode.CMA ∧
      ((d.equalizeCore i q).2).should_switch_to_dd
  · rw [if_pos hc]
    have hsw := hc.2
    unfold DFE.should_switch_to_dd at hsw
    rw [hcfg] at hsw
    constructor
    · intro _
      right
      exact ⟨hmode ▸ hc.1, hsw.1, hsw.2.1, hsw.2.2⟩
    · intro _
      rfl
  · rw [if_neg hc]
    rw [hmode]
    constructor
    · intro hdd
      left
      exact hdd
    · intro h
      rcases h with hdd | ⟨hcma, h1, h2, h3⟩
      · exact hdd
      · exfalso
        apply hc
        refine ⟨hmode.trans hcma, ?_⟩
        unfold DFE.should_switch_to_dd
        rw [hcfg]
        exact ⟨h1, h2, h3⟩

/-- C7 (confirmed).  Frame property of DFE set_constellation: it replaces
the constellation in force, recomputes the CMA target R^2 from the new
constellation, and leaves every other component of the equalizer state
(coefficients, histories, mode, counters, error statistics, configuration)
unchanged. -/
theorem c7_set_constellation_frame (d : DFE) (c : ConstellationType) :
    (d.set_constellation c).constellation = c ∧
    (d.set_constellation c).cma_r2 = DFE.compute_cma_r2 c ∧
    (d.set_constellation c).ff_coeffs = d.ff_coeffs ∧
    (d.set_constellation c).fb_coeffs = d.fb_coeffs ∧
    (d.set_constellation c).ff_history = d.ff_history ∧
    (d.set_constellation c).fb_history = d.fb_history ∧
    (d.set_constellation c).mode = d.mode ∧
    (d.set_constellation c).total_symbols = d.total_symbols ∧
    (d.set_constellation c).error_power_avg = d.error_power_avg ∧
    (d.set_constellation c).cma_cost_avg = d.cma_cost_avg ∧
    (d.set_constellation c).config = d.config :=
  ⟨rfl, rfl, rfl, rfl, rfl, rfl, rfl, rfl, rfl, rfl, rfl⟩

-- ============================================================================
-- Unified Modulator (modem/unified.rs lines 413-453 and 852-1018)
-- ============================================================================

def RRC_ALPHA : ℝ := 0.35

def RRC_SPAN : ℕ := 6

/-- One point of the root-raised-cosine impulse response, with the explicit
t = 0 and t = 1/(4 alpha) singularities of the source. -/
noncomputable def rrc_sample (t alpha : ℝ) : ℝ :=
  if abs t < 1e-10 then
    1 - alpha + 4 * alpha / π
  else if abs (abs t - 1 / (4 * alpha)) < 1e-10 then
    alpha / Real.sqrt 2 *
      ((1 + 2 / π) * Real.sin (π / (4 * alpha)) + (1 - 2 / π) * Real.cos (π / (4 * alpha)))
  else
    (Real.sin (π * t * (1 - alpha)) + 4 * alpha * t * Real.cos (π * t * (1 + alpha))) /
      (π * t * (1 - (4 * alpha * t) ^ 2))

/-- RRC coefficient vector of length 2*span*sps + 1, normalized to unit
energy. -/
noncomputable def generate_rrc_coeffs (sps : ℕ) : List ℝ :=
  let len := 2 * RRC_SPAN * sps + 1
  let center := (len - 1) / 2
  let coeffs := (List.range len).map fun i =>
    rrc_sample (((i : ℝ) - (center : ℝ)) / (sps : ℝ)) RRC_ALPHA
  let energy := (coeffs.map fun x => x * x).sum
  coeffs.map fun c => c / Real.sqrt energy

structure UnifiedModulator where
  constellation : ConstellationType
  sample_rate : ℕ
  symbol_rate : ℕ
  carrier_freq : ℝ
  sps : ℕ
  rrc_coeffs : List ℝ
  i_history : List ℝ
  q_history : List ℝ
  nco_phase : ℝ
  nco_phase_inc : ℝ
  output_scale : ℝ

namespace UnifiedModulator

/-- Constructor (UnifiedModulator::new): sps is the integer quotient of the
rates, histories are zeroed at the filter length, the NCO starts at phase 0
and the output scale is 32768. -/
noncomputable def new (constellation : ConstellationType) (sample_rate symbol_rate : ℕ)
    (carrier_freq : ℝ) : UnifiedModulator :=
  let sps := sample_rate / symbol_rate
  let rrc_coeffs := generate_rrc_coeffs sps
  { constellation := constellation
    sample_rate := sample_rate
    symbol_rate := symbol_rate
    carrier_freq := carrier_freq
    sps := sps
    rrc_coeffs := rrc_coeffs
    i_history := List.replicate rrc_coeffs.length 0
    q_history := List.replicate rrc_coeffs.length 0
    nco_phase := 0
    nco_phase_inc := 2 * π * carrier_freq / (sample_rate : ℝ)
    output_scale := 32768 }

/-- Dot product of a history with the RRC coefficients. -/
noncomputable def apply_filter (m : UnifiedModulator) (history : List ℝ) : ℝ :=
  ((history.zip m.rrc_coeffs).map fun p => p.1 * p.2).sum

/-- One inner-loop iteration of modulate: shift the histories, insert the
impulse at the symbol center (zero elsewhere), filter, mix with the NCO and
advance the NCO phase (a single conditional wrap).  Returns the updated
state and the passband sample i_filtered*cos - q_filtered*sin. -/
noncomputable def modSampleStep (i_val q_val : ℝ) (impulse_offset : ℕ)
    (m : UnifiedModulator) (sample_idx : ℕ) : UnifiedModulator × ℝ :=
  let m1 := { m with
    i_history := shiftIn m.i_history (if sample_idx = impulse_offset then i_val else 0)
    q_history := shiftIn m.q_history (if sample_idx = impulse_offset then q_val else 0) }
  let i_filtered := m1.apply_filter m1.i_history
  let q_filtered := m1.apply_filter m1.q_history
  let sample := i_filtered * Real.cos m1.nco_phase - q_filtered * Real.sin m1.nco_phase
  let p := m1.nco_phase + m1.nco_phase_inc
  ({ m1 with nco_phase := if p > 2 * π then p - 2 * π else p }, sample)

/-- One emitting iteration of modulate: the inner step followed by scaling
the passband sample by output_scale and the saturating-truncating i16 cast
of the push. -/
noncomputable def modEmitStep (i_val q_val : ℝ) (impulse_offset : ℕ) (sc : ℝ)
    (acc : List ℤ × UnifiedModulator) (sample_idx : ℕ) : List ℤ × UnifiedModulator :=
  (acc.1 ++ [i16SatCast ((modSampleStep i_val q_val impulse_offset acc.2 sample_idx).2 * sc)],
   (modSampleStep i_val q_val impulse_offset acc.2 sample_idx).1)

/-- Same iteration, pushing the raw passband sample instead. -/
noncomputable def passbandStep (i_val q_val : ℝ) (impulse_offset : ℕ)
    (acc : List ℝ × UnifiedModulator) (sample_idx : ℕ) : List ℝ × UnifiedModulator :=
  (acc.1 ++ [(modSampleStep i_val q_val impulse_offset acc.2 sample_idx).2],
   (modSampleStep i_val q_val impulse_offset acc.2 sample_idx).1)

/-- UnifiedModulator::modulate: for each symbol, run sps inner iterations and
emit each passband sample scaled by output_scale and cast to i16 with the
saturating-truncating Rust as-cast. -/
noncomputable def modulate (m : UnifiedModulator) (symbols : List ℕ) :
    List ℤ × UnifiedModulator :=
  let impulse_offset := m.sps / 2
  symbols.foldl
    (fun acc sym =>
      (List.range m.sps).foldl
        (modEmitStep (m.constellation.symbol_to_iq sym).1
          (m.constellation.symbol_to_iq sym).2 impulse_offset m.output_scale)
        acc)
    (([] : List ℤ), m)

/-- The sequence of passband samples s = I_f*cos - Q_f*sin produced by the
same iteration, before scaling and casting: the spec-side description of
the modulator output. -/
noncomputable def passband_samples (m : UnifiedModulator) (symbols : List ℕ) :
    List ℝ × UnifiedModulator :=
  let impulse_offset := m.sps / 2
  symbols.foldl
    (fun acc sym =>
      (List.range m.sps).foldl
        (passbandStep (m.constellation.symbol_to_iq sym).1
          (m.constellation.symbol_to_iq sym).2 impulse_offset)
        acc)
    (([] : List ℝ), m)

end UnifiedModulator

theorem modEmitStep_passbandStep (iv qv : ℝ) (off : ℕ) (sc : ℝ)
    (outR : List ℝ) (st : UnifiedModulator) (idx : ℕ) :
    UnifiedModulator.modEmitStep iv qv off sc (outR.map fun s => i16SatCast (s * sc), st) idx =
      ((UnifiedModulator.passbandStep iv qv off (outR, st) idx).1.map fun s => i16SatCast (s * sc),
       (UnifiedModulator.passbandStep iv qv off (outR, st) idx).2) := by
  simp [UnifiedModulator.modEmitStep, UnifiedModulator.passbandStep]

theorem foldl_emit_passband (iv qv : ℝ) (off : ℕ) (sc : ℝ) (l : List ℕ) :
    ∀ (outR : List ℝ) (st : UnifiedModulator),
      l.foldl (UnifiedModulator.modEmitStep iv qv off sc)
          (outR.map fun s => i16SatCast (s * sc), st) =
        ((l.foldl (UnifiedModulator.passbandStep iv qv off) (outR, st)).1.map
            fun s => i16SatCast (s * sc),
         (l.foldl (UnifiedModulator.passbandStep iv qv off) (outR, st)).2) := by
  induction l with
  | nil => intro outR st; rfl
  | cons x l ih =>
    intro outR st
    simp only [List.foldl_cons]
    rw [modEmitStep_passbandStep]
    rw [ih]

/-- Inner fold length for the passband iteration: one output per index. -/
theorem foldl_passband_length (iv qv : ℝ) (off : ℕ) (l : List ℕ) :
    ∀ (acc : List ℝ × UnifiedModulator),
      ((l.foldl (UnifiedModulator.passbandStep iv qv off) acc).1).length =
        acc.1.length + l.length := by
  induction l with
  | nil => intro acc; simp
  | cons x l ih =>
    intro acc
    simp only [List.foldl_cons]
    rw [ih]
    simp [UnifiedModulator.passbandStep]
    omega

/-- The modulate output is exactly the passband sample sequence scaled by
output_scale and pushed through the saturating-truncating i16 cast, and both
runs end in the same state. -/
theorem modulate_eq_passband_map (m : UnifiedModulator) (symbols : List ℕ) :
    m.modulate symbols =
      (((m.passband_samples symbols).1).map fun s => i16SatCast (s * m.output_scale),
       (m.passband_samples symbols).2) := by
  unfold UnifiedModulator.modulate UnifiedModulator.passband_samples
  have main : ∀ (syms : List ℕ) (outR : List ℝ) (st : UnifiedModulator),
      (syms.foldl (fun acc sym => (List.range m.sps).foldl
          (UnifiedModulator.modEmitStep (m.constellation.symbol_to_iq sym).1
            (m.constellation.symbol_to_iq sym).2 (m.sps / 2) m.output_scale) acc)
        (outR.map fun s => i16SatCast (s * m.output_scale), st)) =
      ((syms.foldl (fun acc sym => (List.range m.sps).foldl
          (UnifiedModulator.passbandStep (m.constellation.symbol_to_iq sym).1
            (m.constellation.symbol_to_iq sym).2 (m.sps / 2)) acc) (outR, st)).1.map
          fun s => i16SatCast (s * m.output_scale),
       (syms.foldl (fun acc sym => (List.range m.sps).foldl
          (UnifiedModulator.passbandStep (m.constellation.symbol_to_iq sym).1
            (m.constellation.symbol_to_iq sym).2 (m.sps / 2)) acc) (outR, st)).2) := by
    intro syms
    induction syms with
    | nil => intro outR st; rfl
    | cons sym syms ih =>
      intro outR st
      simp only [List.foldl_cons]
      rw [foldl_emit_passband]
      rw [ih]
  exact main symbols [] m

/-- Length of the passband sample sequence: sps samples per symbol. -/
theorem passband_samples_length (m : UnifiedModulator) (symbols : List ℕ) :
    ((m.passband_samples symbols).1).length = m.sps * symbols.length := by
  unfold UnifiedModulator.passband_samples
  have main : ∀ (syms : List ℕ) (acc : List ℝ × UnifiedModulator),
      ((syms.foldl (fun a sym => (List.range m.sps).foldl
          (UnifiedModulator.passbandStep (m.constellation.symbol_to_iq sym).1
            (m.constellation.symbol_to_iq sym).2 (m.sps / 2)) a) acc).1).length =
        acc.1.length + m.sps * syms.length := by
    intro syms
    induction syms with
    | nil => intro acc; simp
    | cons sym syms ih =>
      intro acc
      simp only [List.foldl_cons]
      rw [ih, foldl_passband_length]
      simp [Nat.mul_succ]
      omega
  simpa using main symbols ([], m)

-- ============================================================================
-- C2: modulator emission formula, and C6: determinism and sizing
-- ============================================================================

/-- C2 (amended).  Every sample emitted by UnifiedModulator::modulate is the
passband sample s = I_f*cos - Q_f*sin scaled by output_scale (32768 at
construction) and converted with the Rust saturating as-cast to i16, which
truncates toward zero and clamps to [-32768, 32767] — not with
round-to-nearest, as c2_round_vs_truncate_counterexample below shows. -/
theorem c2_modulator_truncating_emission (m : UnifiedModulator) (symbols : List ℕ)
    (c : ConstellationType) (sr syr : ℕ) (cf : ℝ) :
    (m.modulate symbols).1 =
      ((m.passband_samples symbols).1).map (fun s => i16SatCast (s * m.output_scale)) ∧
    (UnifiedModulator.new c sr syr cf).output_scale = 32768 :=
  ⟨congrArg Prod.fst (modulate_eq_passband_map m symbols), rfl⟩

/-- A concrete modulator state witnessing the truncation: a single-tap unit
filter, zero carrier and 16-QAM, so that the first passband sample is the
table value 0.866025 and 0.866025 * 32768 = 28377.9072. -/
noncomputable def c2CexModulator : UnifiedModulator :=
  { constellation := ConstellationType.Qam16
    sample_rate := 9600
    symbol_rate := 9600
    carrier_freq := 0
    sps := 1
    rrc_coeffs := [1]
    i_history := [0]
    q_history := [0]
    nco_phase := 0
    nco_phase_inc := 0
    output_scale := 32768 }

/-- C2 counterexample to the claim as stated: on symbol 0 of 16-QAM the
passband sample times output_scale is 28377.9072; the code emits the
truncated 28377 while round(s * output_scale) clamped to int16 would be
28378. -/
theorem c2_round_vs_truncate_counterexample :
    (c2CexModulator.modulate [0]).1 = [28377] ∧
    ((c2CexModulator.passband_samples [0]).1).map
      (fun s => roundClampI16 (s * c2CexModulator.output_scale)) = [28378] := by
  have hpass : (c2CexModulator.passband_samples [0]).1 = [0.866025] := by
    unfold UnifiedModulator.passband_samples
    simp only [c2CexModulator, List.range_succ, List.range_zero, List.nil_append,
      List.foldl_cons, List.foldl_nil,
      UnifiedModulator.passbandStep, UnifiedModulator.modSampleStep,
      UnifiedModulator.apply_filter, shiftIn, rotate_left1, setLast,
      ConstellationType.symbol_to_iq, qam16_symbol_to_iq, QAM16_CONSTELLATION]
    norm_num [List.getD, Real.cos_zero, Real.sin_zero]
  constructor
  · rw [congrArg Prod.fst (modulate_eq_passband_map c2CexModulator [0]), hpass]
    show [i16SatCast (0.866025 * c2CexModulator.output_scale)] = [28377]
    have : (0.866025 : ℝ) * c2CexModulator.output_scale = 28377.9072 := by
      show (0.866025 : ℝ) * 32768 = 28377.9072
      norm_num
    rw [this]
    unfold i16SatCast truncToward0
    norm_num
  · rw [hpass]
    show [roundClampI16 (0.866025 * c2CexModulator.output_scale)] = [28378]
    have : (0.866025 : ℝ) * c2CexModulator.output_scale = 28377.9072 := by
      show (0.866025 : ℝ) * 32768 = 28377.9072
      norm_num
    rw [this]
    unfold roundClampI16
    rw [round_eq]
    norm_num

/-- C6 (confirmed).  Two UnifiedModulators built with equal construction
parameters produce identical output (and state) on the same first input,
and the output length of modulate is exactly sps times the number of
symbols, with sps the integer quotient sample_rate / symbol_rate. -/
theorem c6_modulator_determinism_and_sizing (c : ConstellationType) (sr syr : ℕ)
    (cf : ℝ) (symbols : List ℕ) (m1 m2 : UnifiedModulator)
    (h1 : m1 = UnifiedModulator.new c sr syr cf)
    (h2 : m2 = UnifiedModulator.new c sr syr cf) :
    m1.modulate symbols = m2.modulate symbols ∧
    (m1.modulate symbols).1.length = (sr / syr) * symbols.length := by
  subst h1
  subst h2
  refine ⟨rfl, ?_⟩
  rw [congrArg Prod.fst (modulate_eq_passband_map _ symbols)]
  rw [List.length_map, passband_samples_length]
  rfl

/-- Witness for C6 at concrete construction parameters. -/
theorem c6_modulator_witness :
    (UnifiedModulator.new ConstellationType.Psk8 9600 2400 1800).modulate [0, 1, 2] =
      (UnifiedModulator.new ConstellationType.Psk8 9600 2400 1800).modulate [0, 1, 2] ∧
    ((UnifiedModulator.new ConstellationType.Psk8 9600 2400 1800).modulate
        [0, 1, 2]).1.length = (9600 / 2400) * 3 :=
  c6_modulator_determinism_and_sizing ConstellationType.Psk8 9600 2400 1800 [0, 1, 2]
    _ _ rfl rfl

-- ============================================================================
-- Unified Demodulator (modem/unified.rs lines 1020-1423)
-- ============================================================================

/-- Closed form of the wrapping loop: while x > 2*pi do x := x - 2*pi.
For x > 2*pi the loop subtracts 2*pi exactly ceil((x - 2*pi)/(2*pi)) times,
the least count bringing the value to at most 2*pi. -/
noncomputable def wrapGt2pi (x : ℝ) : ℝ :=
  if x > 2 * π then x - 2 * π * (⌈(x - 2 * π) / (2 * π)⌉ : ℝ) else x

/-- Closed form of the wrapping loop: while x < 0 do x := x + 2*pi.
For x < 0 the loop adds 2*pi exactly ceil(-x/(2*pi)) times, the least count
bringing the value to at least 0. -/
noncomputable def wrapLt0 (x : ℝ) : ℝ :=
  if x < 0 then x + 2 * π * (⌈(-x) / (2 * π)⌉ : ℝ) else x

structure UnifiedDemodulator where
  constellation : ConstellationType
  sample_rate : ℕ
  symbol_rate : ℕ
  carrier_freq : ℝ
  sps : ℕ
  rrc_coeffs : List ℝ
  i_history : List ℝ
  q_history : List ℝ
  pll_phase : ℝ
  pll_freq : ℝ
  pll_integrator : ℝ
  pll_alpha : ℝ
  pll_beta : ℝ
  carrier_phase_inc : ℝ
  timing_phase : ℕ
  timing_acquired : Bool
  equalizer : Option DFE
  training_mode : Bool
  training_symbols : List ℕ
  training_index : ℕ

namespace UnifiedDemodulator

/-- Constructor (UnifiedDemodulator::new): proportional-only PLL with
loop bandwidth 30 Hz, critical damping, beta = 0 (integrator disabled). -/
noncomputable def new (constellation : ConstellationType) (sample_rate symbol_rate : ℕ)
    (carrier_freq : ℝ) : UnifiedDemodulator :=
  let sps := sample_rate / symbol_rate
  let rrc_coeffs := generate_rrc_coeffs sps
  let loop_bw_hz : ℝ := 30
  let wn := 2 * π * loop_bw_hz
  let ts := 1 / (symbol_rate : ℝ)
  let zeta : ℝ := 1
  { constellation := constellation
    sample_rate := sample_rate
    symbol_rate := symbol_rate
    carrier_freq := carrier_freq
    sps := sps
    rrc_coeffs := rrc_coeffs
    i_history := List.replicate rrc_coeffs.length 0
    q_history := List.replicate rrc_coeffs.length 0
    pll_phase := 0
    pll_freq := 0
    pll_integrator := 0
    pll_alpha := 2 * zeta * wn * ts
    pll_beta := 0
    carrier_phase_inc := 2 * π * carrier_freq / (sample_rate : ℝ)
    timing_phase := 0
    timing_acquired := false
    equalizer := none
    training_mode := false
    training_symbols := []
    training_index := 0 }

/-- Dot product of a history with the RRC coefficients. -/
noncomputable def apply_filter (d : UnifiedDemodulator) (history : List ℝ) : ℝ :=
  ((history.zip d.rrc_coeffs).map fun p => p.1 * p.2).sum

/-- Blind eighth-power phase error: three complex squarings then
atan2 / 8. -/
noncomputable def compute_phase_error (_d : UnifiedDemodulator) (i_rx q_rx : ℝ) : ℝ :=
  let z := (List.range 3).foldl
    (fun p _ => (p.1 * p.1 - p.2 * p.2, 2 * p.1 * p.2)) (i_rx, q_rx)
  atan2 z.2 z.1 / 8

/-- Decision-directed phase error against a known symbol. -/
noncomputable def compute_phase_error_dd (d : UnifiedDemodulator) (i_rx q_rx : ℝ)
    (known_symbol : ℕ) : ℝ :=
  let iq := d.constellation.symbol_to_iq known_symbol
  let cross := i_rx * iq.2 - q_rx * iq.1
  let dot := i_rx * iq.1 + q_rx * iq.2
  atan2 cross dot

/-- Front half of one demodulation step: normalize the i16 sample, mix with
the current PLL phase (cos, -sin, doubled), shift the RRC histories and
filter.  Returns (I_f, Q_f, new i_history, new q_history). -/
noncomputable def demodMixFilter (d : UnifiedDemodulator) (sample : ℤ) :
    ℝ × ℝ × List ℝ × List ℝ :=
  let sample_f := (sample : ℝ) / 32768
  let lo_i := Real.cos d.pll_phase
  let lo_q := -Real.sin d.pll_phase
  let mixed_i := sample_f * lo_i * 2
  let mixed_q := sample_f * lo_q * 2
  let ih := shiftIn d.i_history mixed_i
  let qh := shiftIn d.q_history mixed_q
  (d.apply_filter ih, d.apply_filter qh, ih, qh)

/-- One iteration of the single-pass demodulation loop at enumerated input
(i, sample): mix and filter; at a symbol instant past the filter warmup with
|I_f|^2+|Q_f|^2 > 0.01, update the PLL (phase error, integrator, clamped
frequency) and emit the IQ pair; then advance the PLL phase with the updated
frequency and wrap it into range with the two while loops. -/
noncomputable def demodStep (skip : ℕ) (max_freq_offset : ℝ)
    (acc : UnifiedDemodulator × List (ℝ × ℝ) × ℕ) (is : ℕ × ℤ) :
    UnifiedDemodulator × List (ℝ × ℝ) × ℕ :=
  let d := acc.1
  let i := is.1
  let mf := demodMixFilter d is.2
  let fi := mf.1
  let fq := mf.2.1
  let d1 := { d with i_history := mf.2.2.1, q_history := mf.2.2.2 }
  let r :=
    if i % d1.sps = d1.timing_phase then
      if skip ≤ i then
        let mag_sq := fi * fi + fq * fq
        let d2 :=
          if mag_sq > 0.01 then
            let phase_error :=
              if d1.training_mode = true ∧ acc.2.2 < d1.training_symbols.length then
                d1.compute_phase_error_dd fi fq (d1.training_symbols.getD acc.2.2 0)
              else
                d1.compute_phase_error fi fq
            let integ := d1.pll_integrator + phase_error
            let freq := (d1.pll_alpha * phase_error + d1.pll_beta * integ) / (d1.sps : ℝ)
            { d1 with pll_integrator := integ,
                      pll_freq := rclamp freq (-max_freq_offset) max_freq_offset }
          else d1
        (d2, acc.2.1 ++ [(fi, fq)], acc.2.2 + 1)
      else
        (d1, acc.2.1 ++ [(fi, fq)], acc.2.2)
    else
      (d1, acc.2.1, acc.2.2)
  let d3 := r.1
  ({ d3 with pll_phase := wrapLt0 (wrapGt2pi (d3.pll_phase + d3.carrier_phase_inc + d3.pll_freq)) },
   r.2.1, r.2.2)

/-- One iteration of the timing-acquisition scan: temporary mixing with the
nominal carrier (PLL held), scratch RRC histories, and per-phase energy
accumulation for inputs past the filter warmup. -/
noncomputable def demodAcqStep (d : UnifiedDemodulator) (skip : ℕ)
    (acc : ℝ × List ℝ × List ℝ × List ℝ) (is : ℕ × ℤ) : ℝ × List ℝ × List ℝ × List ℝ :=
  let temp_phase := acc.1
  let sample_f := (is.2 : ℝ) / 32768
  let lo_i := Real.cos temp_phase
  let lo_q := -Real.sin temp_phase
  let mixed_i := sample_f * lo_i * 2
  let mixed_q := sample_f * lo_q * 2
  let ih := shiftIn acc.2.1 mixed_i
  let qh := shiftIn acc.2.2.1 mixed_q
  let fi := d.apply_filter ih
  let fq := d.apply_filter qh
  let energy :=
    if skip ≤ is.1 then
      (acc.2.2.2).set (is.1 % d.sps)
        ((acc.2.2.2).getD (is.1 % d.sps) 0 + (fi * fi + fq * fq))
    else acc.2.2.2
  (wrapGt2pi (temp_phase + d.carrier_phase_inc), ih, qh, energy)

/-- The argmax selection of the Rust max_by (which keeps the accumulated
candidate only when strictly greater, so ties go to the later index),
with unwrap_or 0 on an empty list. -/
noncomputable def argmax_last (l : List ℝ) : ℕ :=
  ((l.enum.foldl
      (fun best e =>
        match best with
        | none => some e
        | some b => if b.2 > e.2 then some b else some e)
      (none : Option (ℕ × ℝ))).map Prod.fst).getD 0

/-- Timing acquisition over (at most) the first 500 samples: scan with
scratch state, then store the argmax energy bucket as timing_phase and mark
timing as acquired.  Nothing else of the state changes. -/
noncomputable def demodAcquire (d : UnifiedDemodulator) (skip : ℕ) (samples : List ℤ) :
    UnifiedDemodulator :=
  let acq_samples := min samples.length 500
  let r := ((samples.take acq_samples).enum).foldl (demodAcqStep d skip)
    (d.pll_phase, d.i_history, d.q_history, List.replicate d.sps 0)
  { d with timing_phase := argmax_last r.2.2.2, timing_acquired := true }

/-- UnifiedDemodulator::demodulate_iq: early return on empty input;
otherwise timing acquisition on the first call, then the single-pass
demodulation fold with live PLL updates. -/
noncomputable def demodulate_iq (d : UnifiedDemodulator) (samples : List ℤ) :
    List (ℝ × ℝ) × UnifiedDemodulator :=
  if samples.isEmpty then ([], d)
  else
    let skip := 2 * RRC_SPAN * d.sps
    let max_freq_offset := 2 * π * 50 / (d.sample_rate : ℝ)
    let d1 := if d.timing_acquired = true then d else demodAcquire d skip samples
    let r := samples.enum.foldl (demodStep skip max_freq_offset) (d1, [], 0)
    (r.2.1, r.1)

end UnifiedDemodulator

/-- A sequence of demodulate_iq calls applied to a demodulator. -/
noncomputable def demodRunCalls (d : UnifiedDemodulator) (calls : List (List ℤ)) :
    UnifiedDemodulator :=
  calls.foldl (fun st samples => (st.demodulate_iq samples).2) d

-- ============================================================================
-- C4: PLL correction bound and update gating
-- ============================================================================

theorem abs_rclamp_le (v m : ℝ) (hm : 0 ≤ m) : |rclamp v (-m) m| ≤ m := by
  unfold rclamp
  split
  · rw [abs_neg, abs_of_nonneg hm]
  · split
    · rw [abs_of_nonneg hm]
    · next h1 h2 =>
      rw [abs_le]
      constructor
      · linarith [not_lt.mp h1]
      · linarith [not_lt.mp h2]

theorem demodStep_sample_rate (skip : ℕ) (mfo : ℝ)
    (acc : UnifiedDemodulator × List (ℝ × ℝ) × ℕ) (e : ℕ × ℤ) :
    (UnifiedDemodulator.demodStep skip mfo acc e).1.sample_rate = acc.1.sample_rate := by
  unfold UnifiedDemodulator.demodStep
  dsimp only
  split
  · split
    · split <;> rfl
    · rfl
  · rfl

theorem demodStep_pll_freq_bound (skip : ℕ) (mfo : ℝ) (hm : 0 ≤ mfo)
    (acc : UnifiedDemodulator × List (ℝ × ℝ) × ℕ) (e : ℕ × ℤ)
    (h : |acc.1.pll_freq| ≤ mfo) :
    |(UnifiedDemodulator.demodStep skip mfo acc e).1.pll_freq| ≤ mfo := by
  unfold UnifiedDemodulator.demodStep
  dsimp only
  split
  · split
    · split
      · exact abs_rclamp_le _ _ hm
      · exact h
    · exact h
  · exact h

theorem demodStep_pll_freq_gating (skip : ℕ) (mfo : ℝ)
    (acc : UnifiedDemodulator × List (ℝ × ℝ) × ℕ) (i : ℕ) (s : ℤ)
    (h : ¬ (i % acc.1.sps = acc.1.timing_phase ∧ skip ≤ i ∧
        (UnifiedDemodulator.demodMixFilter acc.1 s).1 *
          (UnifiedDemodulator.demodMixFilter acc.1 s).1 +
        (UnifiedDemodulator.demodMixFilter acc.1 s).2.1 *
          (UnifiedDemodulator.demodMixFilter acc.1 s).2.1 > 0.01)) :
    (UnifiedDemodulator.demodStep skip mfo acc (i, s)).1.pll_freq = acc.1.pll_freq := by
  unfold UnifiedDemodulator.demodStep
  dsimp only
  split
  · split
    · split
      · next hmod hskip hmag =>
        exact absurd ⟨hmod, hskip, hmag⟩ h
      · rfl
    · rfl
  · rfl

theorem demodFold_sample_rate (skip : ℕ) (mfo : ℝ) (l : List (ℕ × ℤ)) :
    ∀ acc : UnifiedDemodulator × List (ℝ × ℝ) × ℕ,
      ((l.foldl (UnifiedDemodulator.demodStep skip mfo) acc).1).sample_rate =
        acc.1.sample_rate := by
  induction l with
  | nil => intro acc; rfl
  | cons e l ih =>
    intro acc
    simp only [List.foldl_cons]
    rw [ih]
    exact demodStep_sample_rate skip mfo acc e

theorem demodFold_pll_freq_bound (skip : ℕ) (mfo : ℝ) (hm : 0 ≤ mfo) (l : List (ℕ × ℤ)) :
    ∀ acc : UnifiedDemodulator × List (ℝ × ℝ) × ℕ,
      |acc.1.pll_freq| ≤ mfo →
      |((l.foldl (UnifiedDemodulator.demodStep skip mfo) acc).1).pll_freq| ≤ mfo := by
  induction l with
  | nil => intro acc h; exact h
  | cons e l ih =>
    intro acc h
    simp only [List.foldl_cons]
    exact ih _ (demodStep_pll_freq_bound skip mfo hm acc e h)

theorem demodAcquire_pll_freq (d : UnifiedDemodulator) (skip : ℕ) (samples : List ℤ) :
    (d.demodAcquire skip samples).pll_freq = d.pll_freq := rfl

theorem demodAcquire_sample_rate (d : UnifiedDemodulator) (skip : ℕ) (samples : List ℤ) :
    (d.demodAcquire skip samples).sample_rate = d.sample_rate := rfl

theorem demodulate_iq_sample_rate (d : UnifiedDemodulator) (samples : List ℤ) :
    ((d.demodulate_iq samples).2).sample_rate = d.sample_rate := by
  unfold UnifiedDemodulator.demodulate_iq
  split
  · rfl
  · dsimp only
    rw [demodFold_sample_rate]
    split <;> rfl

theorem demodulate_iq_pll_bound (d : UnifiedDemodulator) (samples : List ℤ)
    (h : |d.pll_freq| ≤ 2 * π * 50 / (d.sample_rate : ℝ)) :
    |((d.demodulate_iq samples).2).pll_freq| ≤ 2 * π * 50 / (d.sample_rate : ℝ) := by
  have hm : (0 : ℝ) ≤ 2 * π * 50 / (d.sample_rate : ℝ) := by
    apply div_nonneg
    · positivity
    · exact Nat.cast_nonneg _
  unfold UnifiedDemodulator.demodulate_iq
  split
  · exact h
  · dsimp only
    apply demodFold_pll_freq_bound _ _ hm
    split
    · exact h
    · rw [demodAcquire_pll_freq]
      exact h

/-- C4 (confirmed).  The PLL correction term: starting from a freshly
constructed demodulator, after any sequence of demodulate_iq calls the
frequency correction satisfies |pll_freq| <= 2*pi*50/sample_rate, and within
each call one loop iteration leaves pll_freq unchanged unless it is a symbol
instant (index congruent to timing_phase mod sps) past the filter warmup
whose matched-filter output satisfies I_f^2 + Q_f^2 > 0.01. -/
theorem c4_pll_correction_bound (c : ConstellationType) (sr syr : ℕ) (cf : ℝ)
    (calls : List (List ℤ)) (skip : ℕ) (mfo : ℝ)
    (acc : UnifiedDemodulator × List (ℝ × ℝ) × ℕ) (i : ℕ) (s : ℤ) :
    |(demodRunCalls (UnifiedDemodulator.new c sr syr cf) calls).pll_freq| ≤
      2 * π * 50 / (sr : ℝ) ∧
    (¬ (i % acc.1.sps = acc.1.timing_phase ∧ skip ≤ i ∧
        (UnifiedDemodulator.demodMixFilter acc.1 s).1 *
          (UnifiedDemodulator.demodMixFilter acc.1 s).1 +
        (UnifiedDemodulator.demodMixFilter acc.1 s).2.1 *
          (UnifiedDemodulator.demodMixFilter acc.1 s).2.1 > 0.01) →
      (UnifiedDemodulator.demodStep skip mfo acc (i, s)).1.pll_freq = acc.1.pll_freq) := by
  constructor
  · have main : ∀ (cs : List (List ℤ)) (d : UnifiedDemodulator),
        d.sample_rate = sr → |d.pll_freq| ≤ 2 * π * 50 / (sr : ℝ) →
        |(demodRunCalls d cs).pll_freq| ≤ 2 * π * 50 / (sr : ℝ) := by
      intro cs
      induction cs with
      | nil => intro d _ h; exact h
      | cons samples cs ih =>
        intro d hsr h
        unfold demodRunCalls
        simp only [List.foldl_cons]
        apply ih
        · rw [demodulate_iq_sample_rate, hsr]
        · have := demodulate_iq_pll_bound d samples (by rw [hsr]; exact h)
          rw [hsr] at this
          exact this
    apply main calls (UnifiedDemodulator.new c sr syr cf) rfl
    have : |(UnifiedDemodulator.new c sr syr cf).pll_freq| = 0 := by
      show |(0 : ℝ)| = 0
      simp
    rw [this]
    apply div_nonneg
    · positivity
    · exact Nat.cast_nonneg _
  · exact demodStep_pll_freq_gating skip mfo acc i s

/-- Witness for C4 at concrete inputs: the empty call list keeps the bound,
and at index 1 (not a symbol instant of the fresh demodulator, whose
timing_phase is 0 and sps is 4) the step leaves pll_freq unchanged. -/
theorem c4_pll_witness :
    |(demodRunCalls (UnifiedDemodulator.new ConstellationType.Bpsk 9600 2400 1800)
        []).pll_freq| ≤ 2 * π * 50 / ((9600 : ℕ) : ℝ) ∧
    (UnifiedDemodulator.demodStep 48 (1 / 10)
        (UnifiedDemodulator.new ConstellationType.Bpsk 9600 2400 1800, [], 0)
        (1, 7)).1.pll_freq =
      (UnifiedDemodulator.new ConstellationType.Bpsk 9600 2400 1800).pll_freq := by
  have h := c4_pll_correction_bound ConstellationType.Bpsk 9600 2400 1800 [] 48 (1 / 10)
    (UnifiedDemodulator.new ConstellationType.Bpsk 9600 2400 1800, [], 0) 1 7
  refine ⟨h.1, h.2 ?_⟩
  intro hc
  have hsps : (UnifiedDemodulator.new ConstellationType.Bpsk 9600 2400 1800).sps = 4 := rfl
  have htp : (UnifiedDemodulator.new ConstellationType.Bpsk 9600 2400 1800).timing_phase =
      0 := rfl
  have h1 := hc.1
  rw [hsps, htp] at h1
  norm_num at h1

-- ============================================================================
-- NCO (carriers/nco.rs)
-- ============================================================================

structure Nco where
  phase : ℝ
  phase_inc : ℝ
  freq_hz : ℝ
  sample_rate : ℝ

namespace Nco

/-- Nco::new: phase 0, increment 2*pi*f/fs. -/
noncomputable def new (freq_hz : ℝ) (sample_rate : ℕ) : Nco :=
  { phase := 0
    phase_inc := 2 * π * freq_hz / (sample_rate : ℝ)
    freq_hz := freq_hz
    sample_rate := (sample_rate : ℝ) }

/-- Carrier::next for the Nco: return (cos, sin) of the current phase, then
advance the phase and subtract 2*pi once if the result reached 2*pi. -/
noncomputable def next (n : Nco) : (ℝ × ℝ) × Nco :=
  let sc := (Real.sin n.phase, Real.cos n.phase)
  let p := n.phase + n.phase_inc
  ((sc.2, sc.1), { n with phase := if p ≥ 2 * π then p - 2 * π else p })

/-- The state after one next call. -/
noncomputable def nextState (n : Nco) : Nco := (n.next).2

end Nco

theorem nextState_phase_inc (n : Nco) : n.nextState.phase_inc = n.phase_inc := rfl

theorem nextState_iter_phase_inc (n : Nco) (k : ℕ) :
    (Nco.nextState^[k] n).phase_inc = n.phase_inc := by
  induction k with
  | zero => rfl
  | succ k ih =>
    rw [Function.iterate_succ_apply']
    rw [nextState_phase_inc, ih]

theorem nco_phase_invariant (n : Nco) (h0 : 0 ≤ n.phase) (h1 : n.phase < 2 * π)
    (hi0 : 0 ≤ n.phase_inc) (hi1 : n.phase_inc ≤ 2 * π) :
    0 ≤ n.nextState.phase ∧ n.nextState.phase < 2 * π := by
  unfold Nco.nextState Nco.next
  dsimp only
  split
  · next h =>
    constructor
    · linarith
    · linarith
  · next h =>
    constructor
    · linarith
    · linarith [not_le.mp h]

/-- C9 (amended).  For an Nco built with 0 <= freq_hz <= sample_rate (and a
positive sample rate), every output pair satisfies sqrt(cos^2 + sin^2) = 1
(so certainly within 1e-10), and the phase remains in [0, 2*pi) after any
number of next calls.  The original claim (for any frequency) is refuted by
c9_nco_negative_freq_counterexample: a negative frequency drives the phase
negative, because the wrap only ever subtracts. -/
theorem c9_nco_purity (freq_hz : ℝ) (sample_rate : ℕ) (k : ℕ)
    (hf0 : 0 ≤ freq_hz) (hf1 : freq_hz ≤ (sample_rate : ℝ)) (hs : 0 < sample_rate) :
    (0 ≤ (Nco.nextState^[k] (Nco.new freq_hz sample_rate)).phase ∧
      (Nco.nextState^[k] (Nco.new freq_hz sample_rate)).phase < 2 * π) ∧
    |Real.sqrt ((((Nco.nextState^[k] (Nco.new freq_hz sample_rate)).next).1.1) ^ 2 +
        (((Nco.nextState^[k] (Nco.new freq_hz sample_rate)).next).1.2) ^ 2) - 1| ≤
      1e-10 := by
  have hsr : (0 : ℝ) < (sample_rate : ℝ) := by exact_mod_cast hs
  have hi0 : 0 ≤ (Nco.new freq_hz sample_rate).phase_inc := by
    show 0 ≤ 2 * π * freq_hz / (sample_rate : ℝ)
    positivity
  have hi1 : (Nco.new freq_hz sample_rate).phase_inc ≤ 2 * π := by
    show 2 * π * freq_hz / (sample_rate : ℝ) ≤ 2 * π
    rw [div_le_iff₀ hsr]
    have hpi := Real.pi_pos
    nlinarith
  have hphase : ∀ m : ℕ, 0 ≤ (Nco.nextState^[m] (Nco.new freq_hz sample_rate)).phase ∧
      (Nco.nextState^[m] (Nco.new freq_hz sample_rate)).phase < 2 * π := by
    intro m
    induction m with
    | zero =>
      constructor
      · exact le_refl 0
      · exact Real.two_pi_pos
    | succ m ih =>
      rw [Function.iterate_succ_apply']
      apply nco_phase_invariant _ ih.1 ih.2
      · rw [nextState_iter_phase_inc]; exact hi0
      · rw [nextState_iter_phase_inc]; exact hi1
  refine ⟨hphase k, ?_⟩
  show |Real.sqrt (Real.cos _ ^ 2 + Real.sin _ ^ 2) - 1| ≤ 1e-10
  rw [Real.cos_sq_add_sin_sq, Real.sqrt_one]
  norm_num

/-- C9 counterexample to the claim as stated: for the Nco at frequency
-8000 Hz with sample rate 8000 Hz, one next call leaves the phase at -2*pi,
which is below the claimed range [0, 2*pi). -/
theorem c9_nco_negative_freq_counterexample :
    ((Nco.new (-8000) 8000).nextState).phase < 0 := by
  have hpi := Real.pi_pos
  unfold Nco.nextState Nco.next Nco.new
  dsimp only
  have hinc : (0 : ℝ) + 2 * π * (-8000) / ((8000 : ℕ) : ℝ) = -(2 * π) := by
    push_cast
    field_simp
  rw [hinc]
  rw [if_neg (by linarith)]
  linarith

/-- Witness for C9 at frequency 1800 Hz, sample rate 8000 Hz, two next
calls. -/
theorem c9_nco_witness :
    (0 ≤ (Nco.nextState^[2] (Nco.new 1800 8000)).phase ∧
      (Nco.nextState^[2] (Nco.new 1800 8000)).phase < 2 * π) ∧
    |Real.sqrt ((((Nco.nextState^[2] (Nco.new 1800 8000)).next).1.1) ^ 2 +
        (((Nco.nextState^[2] (Nco.new 1800 8000)).next).1.2) ^ 2) - 1| ≤ 1e-10 :=
  c9_nco_purity 1800 8000 2 (by norm_num) (by norm_num) (by norm_num)

-- ============================================================================
-- Slab handle store (channel_physics/slab.rs)
-- ============================================================================

/-- Slab metadata: free-slot stack, monotone ID counter, ID-to-slot map
(the HashMap is modelled by an association list with replace-on-insert). -/
structure SlabMeta where
  free : List ℕ
  next_id : ℕ
  id_to_slot : List (ℕ × ℕ)

/-- The slab: option-valued slots plus metadata.  Locks are irrelevant in
the sequential model. -/
structure ChannelSlab (α : Type) where
  slots : List (Option α)
  meta : SlabMeta

namespace ChannelSlab

/-- ChannelSlab::new: capacity empty slots, free list (0..capacity).rev(),
IDs starting at 0. -/
def new (α : Type) (capacity : ℕ) : ChannelSlab α :=
  { slots := List.replicate capacity none
    meta := { free := (List.range capacity).reverse, next_id := 0, id_to_slot := [] } }

/-- ChannelSlab::insert: pop a slot index from the free stack (None when
empty), assign the next ID, bump the counter, fill the slot and record the
ID-to-slot mapping. -/
def insert (s : ChannelSlab α) (item : α) : Option ℕ × ChannelSlab α :=
  match s.meta.free.getLast? with
  | none => (none, s)
  | some slot_idx =>
    let id := s.meta.next_id
    (some id,
      { slots := s.slots.set slot_idx (some item)
        meta :=
          { free := s.meta.free.dropLast
            next_id := id + 1
            id_to_slot := (id, slot_idx) ::
              s.meta.id_to_slot.filter fun p => !(p.1 == id) } })

/-- ChannelSlab::remove: drop the ID from the map (None when absent), take
the slot value (early None return leaves the free list untouched, as in the
source), and push the slot index back on the free stack. -/
def remove (s : ChannelSlab α) (id : ℕ) : Option α × ChannelSlab α :=
  match s.meta.id_to_slot.find? (fun p => p.1 == id) with
  | none => (none, s)
  | some p =>
    let meta1 := { s.meta with
      id_to_slot := s.meta.id_to_slot.filter fun q => !(q.1 == id) }
    match s.slots.getD p.2 none with
    | none => (none, { s with meta := meta1 })
    | some item =>
      (some item,
        { slots := s.slots.set p.2 none
          meta := { meta1 with free := meta1.free ++ [p.2] } })

end ChannelSlab

/-- An insert-or-remove operation against the slab. -/
inductive SlabOp (α : Type) : Type
  | ins (item : α)
  | rem (id : ℕ)

/-- Run a sequence of operations, collecting the IDs handed out by the
successful inserts. -/
def runSlabOps {α : Type} (s : ChannelSlab α) (ops : List (SlabOp α)) :
    ChannelSlab α × List ℕ :=
  ops.foldl
    (fun acc op =>
      match op with
      | SlabOp.ins item =>
        ((acc.1.insert item).2, acc.2 ++ ((acc.1.insert item).1).toList)
      | SlabOp.rem id => ((acc.1.remove id).2, acc.2))
    (s, [])

theorem insert_next_id_monotone {α : Type} (s : ChannelSlab α) (item : α) :
    s.meta.next_id ≤ ((s.insert item).2).meta.next_id := by
  unfold ChannelSlab.insert
  split
  · exact le_refl _
  · exact Nat.le_succ _

theorem remove_next_id {α : Type} (s : ChannelSlab α) (id : ℕ) :
    ((s.remove id).2).meta.next_id = s.meta.next_id := by
  unfold ChannelSlab.remove
  split
  · rfl
  · dsimp only
    split <;> rfl

/-- C8 (confirmed).  Slab handle store: insert returns None exactly when the
free list is empty, and along any sequence of insert and remove operations
from a fresh slab the IDs handed out by successful inserts are pairwise
distinct — IDs are never reused even when slot indices are. -/
theorem c8_slab_ids_never_reused {α : Type} (capacity : ℕ) (ops : List (SlabOp α))
    (s : ChannelSlab α) (item : α) :
    ((s.insert item).1 = none ↔ s.meta.free = []) ∧
    ((runSlabOps (ChannelSlab.new α capacity) ops).2).Nodup := by
  constructor
  · unfold ChannelSlab.insert
    split
    · next h =>
      simp only [List.getLast?_eq_none_iff] at h
      simp [h]
    · next idx h =>
      have hne : s.meta.free ≠ [] := by
        intro hnil
        rw [hnil] at h
        simp at h
      simp [hne]
  · have hins : ∀ (t : ChannelSlab α) (it : α),
        ((t.insert it).1 = none ∧ (t.insert it).2 = t) ∨
        ((t.insert it).1 = some t.meta.next_id ∧
          ((t.insert it).2).meta.next_id = t.meta.next_id + 1) := by
      intro t it
      unfold ChannelSlab.insert
      split
      · left; exact ⟨rfl, rfl⟩
      · right; exact ⟨rfl, rfl⟩
    have main : ∀ (l : List (SlabOp α)) (acc : ChannelSlab α × List ℕ),
        acc.2.Nodup → (∀ id ∈ acc.2, id < acc.1.meta.next_id) →
        ((l.foldl
          (fun acc op =>
            match op with
            | SlabOp.ins item =>
              ((acc.1.insert item).2, acc.2 ++ ((acc.1.insert item).1).toList)
            | SlabOp.rem id => ((acc.1.remove id).2, acc.2))
          acc).2).Nodup := by
      intro l
      induction l with
      | nil => intro acc h _; exact h
      | cons op l ih =>
        intro acc hnodup hbound
        simp only [List.foldl_cons]
        cases op with
        | ins it =>
          rcases hins acc.1 it with ⟨h1, h2⟩ | ⟨h1, h2⟩
          · apply ih
            · simpa [h1] using hnodup
            · simpa [h1, h2] using hbound
          · apply ih
            · show (acc.2 ++ ((acc.1.insert it).1).toList).Nodup
              rw [h1]
              simp only [Option.toList_some]
              rw [List.nodup_append]
              refine ⟨hnodup, List.nodup_singleton _, ?_⟩
              intro id hid
              simp only [List.mem_singleton]
              intro heq
              exact absurd (heq ▸ hbound id hid) (lt_irrefl _)
            · show ∀ id ∈ acc.2 ++ ((acc.1.insert it).1).toList,
                id < ((acc.1.insert it).2).meta.next_id
              rw [h1, h2]
              intro id hid
              simp only [Option.toList_some, List.mem_append, List.mem_singleton] at hid
              rcases hid with hid | rfl
              · exact Nat.lt_succ_of_lt (hbound id hid)
              · exact Nat.lt_succ_self _
        | rem rid =>
          apply ih
          · exact hnodup
          · intro id hid
            rw [remove_next_id]
            exact hbound id hid
    exact main ops (ChannelSlab.new α capacity, []) List.nodup_nil (by intro id hid; cases hid)

-- ============================================================================
-- Watterson channel delay line (channel_physics/channel.rs lines 184-188,
-- 279-291)
-- ============================================================================

/-- The per-I (equivalently per-Q) tap-1 delay line of WattersonChannel:
a ring buffer of length delay_spread_samples.max(1) with a write pointer.
The values stored are the tap-1 LPF outputs; their type is kept abstract
since the mechanism does not depend on it. -/
structure DelayLine (α : Type) where
  line : List α
  wIdx : ℕ

namespace DelayLine

/-- WattersonChannel::new, restricted to the delay-line fields: a zeroed
ring of length delay_spread_samples.max(1) and write index 0. -/
def new (α : Type) [Zero α] (delay_spread_samples : ℕ) : DelayLine α :=
  ⟨List.replicate (max delay_spread_samples 1) 0, 0⟩

/-- The delay-line actions of one WattersonChannel::process iteration:
read at (write_idx + 1) mod len, then write the current value at write_idx
and advance the write pointer.  Returns the delayed value and the new
state. -/
def step {α : Type} [Zero α] (s : DelayLine α) (v : α) : α × DelayLine α :=
  let delay_len := s.line.length
  let delay_read_idx := (s.wIdx + 1) % delay_len
  (s.line.getD delay_read_idx 0,
   ⟨s.line.set s.wIdx v, (s.wIdx + 1) % delay_len⟩)

/-- Feed a block of values through the delay line, collecting the delayed
values that enter the tap-1 complex multiply. -/
def run {α : Type} [Zero α] (s : DelayLine α) (xs : List α) : List α × DelayLine α :=
  xs.foldl (fun acc x => (acc.1 ++ [(step acc.2 x).1], (step acc.2 x).2)) ([], s)

end DelayLine

/-- Ghost shift register of the bisimulation argument: emit the head, then
append the incoming value. -/
def srStep {α : Type} [Zero α] (buf : List α) (v : α) : α × List α :=
  (buf.getD 0 0, buf.tail ++ [v])

/-- The ring buffer abstracted to a shift register of length K: the entries
at offsets 1..K after the write pointer, in reading order. -/
def bufOf {α : Type} [Zero α] (s : DelayLine α) (K : ℕ) : List α :=
  (List.range K).map fun t => s.line.getD ((s.wIdx + 1 + t) % s.line.length) 0

theorem bufOf_length {α : Type} [Zero α] (s : DelayLine α) (K : ℕ) :
    (bufOf s K).length = K := by
  simp [bufOf]

theorem getD_set_ne' {α : Type} (l : List α) (i j : ℕ) (v d : α) (h : i ≠ j) :
    (l.set i v).getD j d = l.getD j d := by
  rw [List.getD_eq_getElem?_getD, List.getD_eq_getElem?_getD, List.getElem?_set_ne h]

theorem getD_set_self' {α : Type} (l : List α) (i : ℕ) (v d : α) (h : i < l.length) :
    (l.set i v).getD i d = v := by
  rw [List.getD_eq_getElem?_getD, List.getElem?_set_self h]
  rfl

theorem add_mod_ne_self (w j L : ℕ) (hw : w < L) (hj0 : 0 < j) (hjL : j < L) :
    (w + j) % L ≠ w := by
  intro h
  have hmeq : Nat.ModEq L w (w + j) := by
    show w % L = (w + j) % L
    rw [h, Nat.mod_eq_of_lt hw]
  have hdvd : L ∣ (w + j) - w := (Nat.modEq_iff_dvd' (Nat.le_add_right w j)).mp hmeq
  simp only [Nat.add_sub_cancel_left] at hdvd
  exact absurd (Nat.le_of_dvd hj0 hdvd) (not_le.mpr hjL)

/-- The value read by a step is the head of the abstract shift register. -/
theorem step_read {α : Type} [Zero α] (s : DelayLine α) (v : α) (K : ℕ) (hK : 0 < K) :
    (DelayLine.step s v).1 = (bufOf s K).getD 0 0 := by
  unfold DelayLine.step bufOf
  rw [List.getD_eq_getElem?_getD, List.getElem?_map, List.getElem?_range hK]
  simp

/-- One step of the ring buffer advances the abstract shift register. -/
theorem step_buf {α : Type} [Zero α] (L K : ℕ) (hL : 0 < L) (hK : K = max (L - 1) 1)
    (s : DelayLine α) (v : α) (hlen : s.line.length = L) (hw : s.wIdx < L) :
    bufOf (DelayLine.step s v).2 K = (bufOf s K).tail ++ [v] := by
  have hK1 : 0 < K := by omega
  apply List.ext_getElem?
  intro n
  have hrhs_len : ((bufOf s K).tail).length = K - 1 := by
    rw [List.length_tail, bufOf_length]
  by_cases hn : n < K
  · have hidx : ((s.wIdx + 1) % s.line.length + 1 + n) % (s.line.set s.wIdx v).length =
        (s.wIdx + 2 + n) % L := by
      rw [List.length_set, hlen, Nat.add_assoc ((s.wIdx + 1) % L) 1 n, Nat.mod_add_mod]
      congr 1
      omega
    have hlhs : (bufOf (DelayLine.step s v).2 K)[n]? =
        some ((s.line.set s.wIdx v).getD ((s.wIdx + 2 + n) % L) 0) := by
      unfold bufOf DelayLine.step
      rw [List.getElem?_map, List.getElem?_range hn]
      simp only [Option.map_some']
      rw [hidx]
    rw [hlhs]
    by_cases hn1 : n < K - 1
    · have hrhs : ((bufOf s K).tail ++ [v])[n]? =
          some (s.line.getD ((s.wIdx + 2 + n) % L) 0) := by
        rw [List.getElem?_append_left (by omega : n < ((bufOf s K).tail).length)]
        rw [List.getElem?_tail]
        unfold bufOf
        rw [List.getElem?_map, List.getElem?_range (by omega : n + 1 < K)]
        simp only [Option.map_some']
        rw [hlen]
        have hidx2 : s.wIdx + 1 + (n + 1) = s.wIdx + 2 + n := by omega
        rw [hidx2]
      rw [hrhs]
      congr 1
      apply getD_set_ne'
      have heq : s.wIdx + 2 + n = s.wIdx + (2 + n) := by omega
      rw [heq]
      exact (add_mod_ne_self s.wIdx (2 + n) L hw (by omega) (by omega)).symm
    · have hn2 : n = K - 1 := by omega
      have hrhs : ((bufOf s K).tail ++ [v])[n]? = some v := by
        rw [List.getElem?_append_right (by omega : ((bufOf s K).tail).length ≤ n)]
        rw [hrhs_len, hn2]
        simp
      rw [hrhs]
      have hwidx : (s.wIdx + 2 + n) % L = s.wIdx := by
        rcases Nat.lt_or_ge L 2 with hL1 | hL2
        · have : L = 1 := by omega
          subst this
          simp [Nat.mod_one]
          omega
        · have hKL : K = L - 1 := by omega
          have : s.wIdx + 2 + n = s.wIdx + L := by omega
          rw [this, Nat.add_mod_right, Nat.mod_eq_of_lt hw]
      rw [hwidx]
      congr 1
      apply getD_set_self'
      rw [hlen]
      exact hw
  · have h1 : (bufOf (DelayLine.step s v).2 K)[n]? = none := by
      apply List.getElem?_eq_none
      rw [bufOf_length]
      omega
    have h2 : ((bufOf s K).tail ++ [v])[n]? = none := by
      apply List.getElem?_eq_none
      rw [List.length_append, hrhs_len]
      simp
      omega
    rw [h1, h2]

/-- The ring-buffer fold and the shift-register fold produce the same
outputs. -/
theorem ringFold_eq_srFold {α : Type} [Zero α] (L K : ℕ) (hL : 0 < L)
    (hK : K = max (L - 1) 1) :
    ∀ (xs : List α) (out : List α) (s : DelayLine α),
      s.line.length = L → s.wIdx < L →
      (xs.foldl
          (fun acc x => (acc.1 ++ [(DelayLine.step acc.2 x).1], (DelayLine.step acc.2 x).2))
          (out, s)).1 =
      (xs.foldl (fun acc x => (acc.1 ++ [(srStep acc.2 x).1], (srStep acc.2 x).2))
          (out, bufOf s K)).1 := by
  intro xs
  induction xs with
  | nil => intro out s _ _; rfl
  | cons x xs ih =>
    intro out s hlen hw
    simp only [List.foldl_cons]
    have hlen' : ((DelayLine.step s x).2).line.length = L := by
      show (s.line.set s.wIdx x).length = L
      rw [List.length_set, hlen]
    have hw' : ((DelayLine.step s x).2).wIdx < L := by
      show (s.wIdx + 1) % s.line.length < L
      rw [hlen]
      exact Nat.mod_lt _ hL
    rw [ih (out ++ [(DelayLine.step s x).1]) ((DelayLine.step s x).2) hlen' hw']
    rw [step_buf L K hL hK s x hlen hw]
    rw [step_read s x K (by omega)]
    rfl

/-- Outputs of the shift-register fold: the n-th emitted value is entry n of
the initial buffer followed by the inputs. -/
theorem srFold_outputs {α : Type} [Zero α] :
    ∀ (xs : List α) (buf out : List α), buf ≠ [] →
      (xs.foldl (fun acc x => (acc.1 ++ [(srStep acc.2 x).1], (srStep acc.2 x).2))
          (out, buf)).1 =
        out ++ (List.range xs.length).map (fun n => (buf ++ xs).getD n 0) := by
  intro xs
  induction xs with
  | nil => intro buf out _; simp
  | cons x xs ih =>
    intro buf out hbuf
    rcases buf with _ | ⟨b, bt⟩
    · exact absurd rfl hbuf
    simp only [List.foldl_cons]
    rw [show (srStep (b :: bt) x).2 = bt ++ [x] from rfl]
    rw [ih (bt ++ [x]) (out ++ [(srStep (b :: bt) x).1]) (by simp)]
    rw [show (srStep (b :: bt) x).1 = b from rfl]
    rw [List.length_cons, List.range_succ_eq_map, List.map_cons, List.map_map]
    have hf0 : ((b :: bt) ++ x :: xs).getD 0 0 = b := rfl
    have hfs : ((fun n => ((b :: bt) ++ x :: xs).getD n 0) ∘ Nat.succ) =
        fun n => ((bt ++ [x]) ++ xs).getD n 0 := by
      funext n
      show ((b :: bt) ++ x :: xs).getD (n + 1) 0 = ((bt ++ [x]) ++ xs).getD n 0
      rw [List.cons_append, List.getD_cons_succ]
      congr 1
      rw [List.append_assoc, List.singleton_append]
    rw [hf0, hfs]
    simp [List.append_assoc]

theorem bufOf_new {α : Type} [Zero α] (D K : ℕ) :
    bufOf (DelayLine.new α D) K = List.replicate K 0 := by
  unfold bufOf DelayLine.new
  have : ∀ t : ℕ,
      (List.replicate (max D 1) (0 : α)).getD ((0 + 1 + t) % (List.replicate (max D 1) (0 : α)).length) 0 = 0 := by
    intro t
    rw [List.getD_eq_getElem?_getD, List.getElem?_replicate]
    split <;> rfl
  calc (List.range K).map (fun t =>
        (List.replicate (max D 1) (0 : α)).getD ((0 + 1 + t) % (List.replicate (max D 1) (0 : α)).length) 0)
      = (List.range K).map (fun _ => (0 : α)) := by
        apply List.map_congr_left
        intro t _
        exact this t
    _ = List.replicate K 0 := by
        rw [List.map_const']
        rw [List.length_range]

theorem replicate_append_getD {α : Type} [Zero α] (k : ℕ) (xs : List α) (n : ℕ) :
    (List.replicate k (0 : α) ++ xs).getD n 0 = if n < k then 0 else xs.getD (n - k) 0 := by
  by_cases h : n < k
  · rw [if_pos h, List.getD_eq_getElem?_getD,
      List.getElem?_append_left (by simpa using h), List.getElem?_replicate, if_pos h]
    rfl
  · rw [if_neg h, List.getD_eq_getElem?_getD,
      List.getElem?_append_right (by simp; omega), List.length_replicate,
      ← List.getD_eq_getElem?_getD]

/-- The delayed value entering the tap-1 multiply at input n is the tap-1
LPF output from max(max(D,1)-1, 1) samples earlier (zero before that). -/
theorem delayline_outputs {α : Type} [Zero α] (D : ℕ) (xs : List α) (n : ℕ)
    (hn : n < xs.length) :
    (((DelayLine.new α D).run xs).1).getD n 0 =
      (List.replicate (max (max D 1 - 1) 1) (0 : α) ++ xs).getD n 0 := by
  unfold DelayLine.run
  rw [ringFold_eq_srFold (max D 1) (max (max D 1 - 1) 1) (by omega) rfl xs []
    (DelayLine.new α D) (by simp [DelayLine.new]) (by simp [DelayLine.new])]
  rw [bufOf_new]
  rw [srFold_outputs xs (List.replicate (max (max D 1 - 1) 1) 0) []
    (by simp only [ne_eq, List.replicate_eq_nil_iff]; omega)]
  simp only [List.nil_append]
  rw [List.getD_eq_getElem?_getD, List.getElem?_map, List.getElem?_range hn]
  rfl

/-- C10 (confirmed).  The tap-1 delay line of WattersonChannel::process:
the ring has length delay_spread_samples.max(1); for D >= 2 the value read
at input sample n (the delayed value entering the tap-1 complex multiply)
is the tap-1 LPF output from sample n - (D - 1) (zero while n < D - 1), so
the echo lags the direct path by D - 1 samples rather than D; for
D in {0, 1} the ring has length 1 and the read returns the previous
sample's value (zero at n = 0). -/
theorem c10_tap1_delay {α : Type} [Zero α] (D : ℕ) (xs : List α) (n : ℕ)
    (hn : n < xs.length) :
    (DelayLine.new α D).line.length = max D 1 ∧
    (2 ≤ D →
      (((DelayLine.new α D).run xs).1).getD n 0 =
        if n < D - 1 then 0 else xs.getD (n - (D - 1)) 0) ∧
    (D ≤ 1 →
      (((DelayLine.new α D).run xs).1).getD n 0 =
        if n = 0 then 0 else xs.getD (n - 1) 0) := by
  refine ⟨by simp [DelayLine.new], ?_, ?_⟩
  · intro hD
    rw [delayline_outputs D xs n hn]
    have hk : max (max D 1 - 1) 1 = D - 1 := by omega
    rw [hk, replicate_append_getD]
  · intro hD
    rw [delayline_outputs D xs n hn]
    have hk : max (max D 1 - 1) 1 = 1 := by omega
    rw [hk, replicate_append_getD]
    simp only [Nat.lt_one_iff]

/-- Witness for C10 with a concrete delay line over the integers: D = 3,
five inputs, read position 3. -/
theorem c10_tap1_delay_witness :
    3 < ([10, 20, 30, 40, 50] : List ℤ).length ∧
    (DelayLine.new ℤ 3).line.length = max 3 1 ∧
    ((((DelayLine.new ℤ 3).run [10, 20, 30, 40, 50]).1).getD 3 0 =
      if 3 < 3 - 1 then 0 else ([10, 20, 30, 40, 50] : List ℤ).getD (3 - (3 - 1)) 0) :=
  ⟨by decide,
   (c10_tap1_delay 3 [10, 20, 30, 40, 50] 3 (by decide)).1,
   (c10_tap1_delay 3 [10, 20, 30, 40, 50] 3 (by decide)).2.1 (by decide)⟩
